import Mathlib

/-!
# prbbd: persistent RAM backed block device driver

A shallow embedding of `src/prbbd.c` and the properties of its transfer
engine, request dispatchers, descriptor parser and device registry.

Conventions of the embedding:

* C strings are `List Char` (the bytes before the terminating NUL);
* buffers and mapped memory are `List Nat` (one entry per byte);
* `unsigned long`, `sector_t` and `resource_size_t` are `Nat` reduced modulo
  `2 ^ bits`, the widths being collected in `Arch`;
* a pointer that may be `NULL` is an `Option`;
* a C operation whose behaviour is undefined (a copy outside a buffer, a
  `NULL` dereference) yields `none`.
-/

namespace Prbbd

/-! ## Machine model -/

/-- Widths, in bits, of the integer types the driver computes in. -/
structure Arch where
  /-- Width of `unsigned long`. -/
  ulong_bits : Nat
  /-- Width of `sector_t`. -/
  sector_bits : Nat
  /-- Width of `resource_size_t`. -/
  resource_bits : Nat
deriving DecidableEq, Repr

/-- A 64-bit kernel: every type is 64 bits wide. -/
def Arch.lp64 : Arch := ⟨64, 64, 64⟩

/-- A 32-bit kernel with large block devices: `sector_t` is `u64`. -/
def Arch.ilp32 : Arch := ⟨32, 64, 32⟩

/-- Truncation of a value to an unsigned integer type of `bits` bits. -/
def wrap (bits : Nat) (x : Nat) : Nat := x % 2 ^ bits

/-! ## Constants (`#define`s of prbbd.c) -/

def REQUEST_MODE : Nat := 1
def RM_SIMPLE : Nat := 0
def RM_NOQUEUE : Nat := 1

def KERNEL_SECTOR_SIZE_SHIFT : Nat := 9
def KERNEL_SECTOR_SIZE : Nat := 1 <<< KERNEL_SECTOR_SIZE_SHIFT
def SECTOR_SIZE_SHIFT : Nat := 9
def SECTOR_SIZE : Nat := 1 <<< SECTOR_SIZE_SHIFT

def PRBBD_MINORS : Nat := 16

def ENOMEM : Int := 12
def EIO : Int := 5
def ENOSPC : Int := 28
def EINVAL : Int := 22

/-! ## Data model -/

/-- The view `ioremap` returns: a handle and the bytes behind it. -/
structure iomem where
  addr : Nat
  bytes : List Nat
deriving DecidableEq, Repr

/-- Fields of `struct gendisk` the driver sets. -/
structure gendisk where
  id : Nat
  major : Int
  first_minor : Nat
  queue : Option Nat
  private_data : Option Nat
  disk_name : List Char
  capacity : Nat
deriving DecidableEq, Repr

/-- The driver record `struct prbbd_dev`; `self` is the address `kzalloc` returned
for it, and the spinlock carries no data. -/
structure prbbd_dev where
  self : Nat
  /-- Device size in sectors. -/
  size : Nat
  /-- Pointer to memory. -/
  data : Option iomem
  queue : Option Nat
  gd : Option gendisk
deriving DecidableEq, Repr

/-! ## Transfer engine -/

/-- `memcpy_toio(io + off, src, n)`: `n` bytes of `src` overwrite `io[off .. off+n)`.
A copy that leaves either object is undefined. -/
def memcpy_toio (io : List Nat) (off : Nat) (src : List Nat) (n : Nat) : Option (List Nat) :=
  if off + n ≤ io.length ∧ n ≤ src.length then
    some (io.take off ++ src.take n ++ io.drop (off + n))
  else none

/-- `memcpy_fromio(dst, io + off, n)`: `io[off .. off+n)` overwrites the first `n`
bytes of `dst`. A copy that leaves either object is undefined. -/
def memcpy_fromio (dst : List Nat) (io : List Nat) (off : Nat) (n : Nat) : Option (List Nat) :=
  if off + n ≤ io.length ∧ n ≤ dst.length then
    some ((io.drop off).take n ++ dst.drop n)
  else none

/-- `prbbd_transfer` (prbbd.c:62-80). `sector` and `nsect` are `sector_t` values;
`offset` and `nbytes` are their left shifts stored in `unsigned long`, and the
bound check is evaluated in `unsigned long` as well. Returns the device and the
buffer after the call (the `printk` of the rejected branch is not recorded). -/
def prbbd_transfer (a : Arch) (dev : prbbd_dev) (sector nsect : Nat) (buffer : List Nat)
    (write : Bool) : Option (prbbd_dev × List Nat) :=
  let offset := wrap a.ulong_bits (sector <<< KERNEL_SECTOR_SIZE_SHIFT)
  let nbytes := wrap a.ulong_bits (nsect <<< KERNEL_SECTOR_SIZE_SHIFT)
  if wrap a.ulong_bits (offset + nbytes) > wrap a.ulong_bits (dev.size <<< SECTOR_SIZE_SHIFT) then
    some (dev, buffer)
  else
    match dev.data with
    | none => none
    | some m =>
      if write then
        (memcpy_toio m.bytes offset buffer nbytes).map
          (fun bytes => ({ dev with data := some { m with bytes := bytes } }, buffer))
      else
        (memcpy_fromio buffer m.bytes offset nbytes).map (fun buf => (dev, buf))

/-- Capacity of a device in bytes, as a mathematical integer. -/
def capacity_bytes (dev : prbbd_dev) : Nat := dev.size * 512

/-- What `register_device` establishes for every device it lists: the memory is
mapped, `size` is `len / SECTOR_SIZE` for the mapped length `len`, and `len` is
an `unsigned long`. -/
def prbbd_dev.mapped (a : Arch) (dev : prbbd_dev) : Prop :=
  ∃ m, dev.data = some m ∧ dev.size = m.bytes.length / SECTOR_SIZE ∧
    m.bytes.length < 2 ^ a.ulong_bits

/-! ## Geometry -/

/-- The result record `struct hd_geometry`, declared in `<linux/hdreg.h>` and not
in prbbd.c. -/
structure hd_geometry where
  heads : Nat
  sectors : Nat
  cylinders : Nat
  start : Nat
deriving DecidableEq, Repr

/-- Widths, in bits, of the fields `heads`, `sectors` and `cylinders` of
`struct hd_geometry` (`start` is an `unsigned long`). -/
structure hd_geometry_bits where
  heads : Nat
  sectors : Nat
  cylinders : Nat
deriving DecidableEq, Repr

/-- The declaration in `<linux/hdreg.h>`: `unsigned char heads`,
`unsigned char sectors`, `unsigned short cylinders`. -/
def linux_hdreg : hd_geometry_bits := ⟨8, 8, 16⟩

/-- The capacity in 512-byte kernel sectors, `size * (SECTOR_SIZE / KERNEL_SECTOR_SIZE)`
in `unsigned long` (prbbd.c:141 and 229). -/
def capacity_sectors (a : Arch) (dev : prbbd_dev) : Nat :=
  wrap a.ulong_bits (dev.size * (SECTOR_SIZE / KERNEL_SECTOR_SIZE))

/-- The constant `~0x3f` after conversion to `unsigned long`. -/
def not_0x3f (a : Arch) : Nat := 2 ^ a.ulong_bits - 1 - 0x3f

/-- `prbbd_getgeo` (prbbd.c:136-150): the status and the record written through
`geo`. Each assignment converts to the width of the field it stores into. -/
def prbbd_getgeo (a : Arch) (g : hd_geometry_bits) (prbbd : prbbd_dev) : Int × hd_geometry :=
  let size := capacity_sectors a prbbd
  (0, { cylinders := wrap g.cylinders ((size &&& not_0x3f a) >>> 6),
        heads := wrap g.heads 4,
        sectors := wrap g.sectors 16,
        start := wrap a.ulong_bits 0 })

/-- A one-sector device whose memory holds zeroes. -/
def dev0 : prbbd_dev :=
  { self := 0, size := 1, data := some ⟨1, List.replicate 512 0⟩, queue := some 2, gd := none }

/-- A 2 GiB device: `4194304` sectors over a mapping of `2 ^ 31` bytes. -/
def dev_2g : prbbd_dev :=
  { self := 0, size := 4194304, data := some ⟨1, List.replicate (2 ^ 31) 0⟩,
    queue := some 2, gd := none }

/-! ## Segment-based dispatch -/

/-- One entry of `bi_io_vec`: `buffer` is the memory `__bio_kmap_atomic` exposes
for the segment (the page from `bv_offset` on), `bv_len` the segment's length in
bytes. -/
structure bio_vec where
  buffer : List Nat
  bv_len : Nat
deriving DecidableEq, Repr

/-- Fields of `struct bio` the driver reads; `bi_vcnt` is the length of
`bi_io_vec`, `bi_write` is `bio_data_dir(bio) == WRITE`. -/
structure bio where
  bi_sector : Nat
  bi_write : Bool
  bi_idx : Nat
  bi_size : Nat
  bi_io_vec : List bio_vec
deriving DecidableEq, Repr

/-- The inline helper `bio_cur_bytes` of `<linux/bio.h>`:
`bio->bi_vcnt ? bio_iovec(bio)->bv_len : bio->bi_size`, where `bio_iovec(bio)` is
`&bio->bi_io_vec[bio->bi_idx]`. It takes the bio alone, not a segment index. -/
def bio_cur_bytes (b : bio) : Option Nat :=
  if b.bi_io_vec.length ≠ 0 then (b.bi_io_vec.get? b.bi_idx).map bio_vec.bv_len
  else some b.bi_size

/-- The body of `bio_for_each_segment` in `prbbd_xfer_bio` (prbbd.c:112-119), run
for the segment indices in the list. `cur` stands for the call
`bio_cur_bytes(bio)`; the running `sector` is a `sector_t`. On a read the bytes
land in the segment's buffer. -/
def prbbd_xfer_bio_loop (a : Arch) (cur : bio → Option Nat) :
    List Nat → prbbd_dev → bio → Nat → Option (prbbd_dev × bio)
  | [], prbbd, b, _ => some (prbbd, b)
  | i :: rest, prbbd, b, sector =>
    match b.bi_io_vec.get? i, cur b with
    | some bvec, some bytes =>
      let nsect := bytes >>> KERNEL_SECTOR_SIZE_SHIFT
      match prbbd_transfer a prbbd sector nsect bvec.buffer b.bi_write with
      | none => none
      | some (prbbd1, buffer1) =>
        prbbd_xfer_bio_loop a cur rest prbbd1
          { b with bi_io_vec := b.bi_io_vec.set i { bvec with buffer := buffer1 } }
          (wrap a.sector_bits (sector + nsect))
    | _, _ => none

/-- `prbbd_xfer_bio` (prbbd.c:106-122): the segments from `bi_idx` to the last, in
order, starting at `bi_sector`; returns the status 0. -/
def prbbd_xfer_bio (a : Arch) (prbbd : prbbd_dev) (b : bio) : Option (Int × prbbd_dev × bio) :=
  (prbbd_xfer_bio_loop a bio_cur_bytes
      (List.range' b.bi_idx (b.bi_io_vec.length - b.bi_idx)) prbbd b b.bi_sector).map
    (fun r => (0, r.1, r.2))

/-- `prbbd_make_request` (prbbd.c:124-134): transfers the bio for the device in
`q->queuedata` and ends it with the status of `prbbd_xfer_bio`; the result is the
return value, the device, the bio and the status given to `bio_endio`. -/
def prbbd_make_request (a : Arch) (queuedata : prbbd_dev) (b : bio) :
    Option (Int × prbbd_dev × bio × Int) :=
  (prbbd_xfer_bio a queuedata b).map (fun r => (0, r.2.1, r.2.2, r.1))

/-- The mapped bytes of a device (empty when nothing is mapped). -/
def prbbd_dev.contents (dev : prbbd_dev) : List Nat :=
  match dev.data with
  | some m => m.bytes
  | none => []

/-- A four-sector device whose memory holds zeroes. -/
def dev4 : prbbd_dev :=
  { self := 0, size := 4, data := some ⟨1, List.replicate 2048 0⟩, queue := some 2, gd := none }

/-- A write bio at sector 0 with a 512-byte segment of ones followed by a
1024-byte segment of twos. -/
def bio_uneven : bio :=
  { bi_sector := 0, bi_write := true, bi_idx := 0, bi_size := 1536,
    bi_io_vec := [⟨List.replicate 512 1, 512⟩, ⟨List.replicate 1024 2, 1024⟩] }

/-! ## Whole-request draining -/

def REQ_TYPE_FS : Nat := 1
def REQ_TYPE_BLOCK_PC : Nat := 2

/-- Fields of `struct request` the driver reads. `chunks` holds the buffers of
the contiguous chunks not completed yet: its head is `req->buffer`, and
`blk_rq_cur_sectors` is the head's length in sectors. -/
structure request where
  id : Nat
  cmd_type : Nat
  /-- Value of `blk_rq_pos`. -/
  pos : Nat
  /-- Value of `rq_data_dir`. -/
  write : Bool
  chunks : List (List Nat)
deriving DecidableEq, Repr

/-- The request queue with the device in `q->queuedata`. `ended` records every
completion of a whole request (id and status), `xfers` every call of
`prbbd_transfer` (request id, sector, sector count), `done` the buffers of the
chunks completed, each in the order they happen. -/
structure queue_state where
  queuedata : prbbd_dev
  pending : List request
  ended : List (Nat × Int)
  xfers : List (Nat × Nat × Nat)
  done : List (Nat × List Nat)
deriving DecidableEq, Repr

/-- `blk_fetch_request`: the next request of the queue, or `NULL`. -/
def blk_fetch_request (st : queue_state) : Option request × queue_state :=
  match st.pending with
  | [] => (none, st)
  | r :: rest => (some r, { st with pending := rest })

def blk_rq_pos (req : request) : Nat := req.pos

def blk_rq_cur_sectors (req : request) : Nat :=
  match req.chunks with
  | [] => 0
  | c :: _ => c.length >>> 9

def rq_data_dir (req : request) : Bool := req.write

/-- `__blk_end_request_all(req, error)`: the whole request is completed with
`error`. -/
def blk_end_request_all (st : queue_state) (req : request) (error : Int) : queue_state :=
  { st with ended := st.ended ++ [(req.id, error)] }

/-- `__blk_end_request_cur(req, error)`: the current chunk is completed; the
result is `true` when the request still has chunks, and otherwise the request
is completed as a whole. -/
def blk_end_request_cur (st : queue_state) (req : request) (error : Int) :
    Bool × request × queue_state :=
  match req.chunks with
  | [] => (false, req, { st with ended := st.ended ++ [(req.id, error)] })
  | c :: rest =>
    let req1 := { req with pos := req.pos + c.length >>> 9, chunks := rest }
    let st1 := { st with done := st.done ++ [(req.id, c)] }
    if rest.isEmpty then (false, req1, { st1 with ended := st1.ended ++ [(req.id, error)] })
    else (true, req1, st1)

/-- How a bounded run of a loop stopped. -/
inductive run (σ : Type) where
  /-- The loop was left. -/
  | returned (s : σ)
  /-- The allowed number of iterations was used up inside the loop. -/
  | spinning (s : σ)
  /-- An undefined operation was reached. -/
  | fault
deriving DecidableEq, Repr

/-- The `while (req != NULL)` loop of `prbbd_request` (prbbd.c:88-101), for at
most `fuel` iterations. After `continue` the loop tests the same `req` again. -/
def prbbd_request_loop (a : Arch) : Nat → Option request → queue_state → run queue_state
  | _, none, st => run.returned st
  | 0, some _, st => run.spinning st
  | fuel + 1, some req, st =>
    if req.cmd_type ≠ REQ_TYPE_FS then
      prbbd_request_loop a fuel (some req) (blk_end_request_all st req (- EIO))
    else
      match req.chunks with
      | [] => run.fault
      | buffer :: rest =>
        match prbbd_transfer a st.queuedata (blk_rq_pos req) (blk_rq_cur_sectors req) buffer
            (rq_data_dir req) with
        | none => run.fault
        | some (prbbd, buffer1) =>
          let st1 := { st with queuedata := prbbd,
                               xfers := st.xfers ++ [(req.id, blk_rq_pos req,
                                 blk_rq_cur_sectors req)] }
          let r := blk_end_request_cur st1 { req with chunks := buffer1 :: rest } 0
          if !r.1 then
            let f := blk_fetch_request r.2.2
            prbbd_request_loop a fuel f.1 f.2
          else
            prbbd_request_loop a fuel (some r.2.1) r.2.2

/-- `prbbd_request` (prbbd.c:82-104), the loop bounded by `fuel` iterations. -/
def prbbd_request (a : Arch) (fuel : Nat) (st : queue_state) : run queue_state :=
  let f := blk_fetch_request st
  prbbd_request_loop a fuel f.1 f.2

/-- A request that is not file-system I/O. -/
def req_pc : request :=
  { id := 7, cmd_type := REQ_TYPE_BLOCK_PC, pos := 0, write := false,
    chunks := [List.replicate 512 0] }

/-- A queue holding the single request `req_pc`. -/
def queue_pc : queue_state :=
  { queuedata := dev0, pending := [req_pc], ended := [], xfers := [], done := [] }

/-! ## Host kernel services -/

/-- What the driver can hold from the kernel. -/
inductive Resource where
  /-- Memory from `kmalloc` or `kzalloc`. -/
  | kmem (addr : Nat)
  /-- A mapping from `ioremap`. -/
  | iomap (addr : Nat)
  /-- A request queue. -/
  | rqueue (id : Nat)
  /-- A `struct gendisk` from `alloc_disk`. -/
  | disk (id : Nat)
  /-- A block-device major number. -/
  | blkdev (major : Int)
deriving DecidableEq, Repr

/-- The record `struct prbbd_param`; `self` is the address `kzalloc` returned. -/
structure prbbd_param where
  self : Nat
  param : List Char
deriving DecidableEq, Repr

/-- The kernel as the driver sees it. Each `_ok` field tells whether the call
succeeds when it is the `n`-th allocation call made so far, so any failure
can be injected; `phys` is the content of physical memory; `memparse` is the
kernel's number parser, whose result is an `unsigned long long`. -/
structure Host where
  kmalloc_ok : Nat → Bool
  ioremap_ok : Nat → Nat → Nat → Bool
  blk_init_queue_ok : Nat → Bool
  blk_alloc_queue_ok : Nat → Bool
  alloc_disk_ok : Nat → Bool
  register_blkdev : Int → Int
  phys : Nat → Nat
  memparse : List Char → Nat

/-- The globals of prbbd.c (`prbbd_param_list`, `prbbd_list`, `prbbd_major`, the
`static int i` of `register_device`) and the kernel-side state: the number of
allocation calls made (also the next fresh handle), the resources held, the
disks published by `add_disk`, and the log. -/
structure State where
  prbbd_param_list : List prbbd_param
  prbbd_list : List prbbd_dev
  prbbd_major : Int
  register_device_i : Nat
  seq : Nat
  held : List Resource
  disks : List gendisk
  log : List String
deriving DecidableEq, Repr

def printk (st : State) (msg : String) : State := { st with log := st.log ++ [msg] }

def kmalloc (h : Host) (st : State) : Option Nat × State :=
  if h.kmalloc_ok st.seq then
    (some st.seq, { st with seq := st.seq + 1, held := Resource.kmem st.seq :: st.held })
  else (none, { st with seq := st.seq + 1 })

def kfree (st : State) (p : Nat) : State :=
  { st with held := st.held.erase (Resource.kmem p) }

/-- `ioremap(start, len)`: a view of `len` bytes of physical memory from `start`. -/
def ioremap (h : Host) (st : State) (start len : Nat) : Option iomem × State :=
  if h.ioremap_ok st.seq start len then
    (some ⟨st.seq, (List.range len).map (fun k => h.phys (start + k))⟩,
      { st with seq := st.seq + 1, held := Resource.iomap st.seq :: st.held })
  else (none, { st with seq := st.seq + 1 })

def iounmap (st : State) (m : iomem) : State :=
  { st with held := st.held.erase (Resource.iomap m.addr) }

def blk_init_queue (h : Host) (st : State) : Option Nat × State :=
  if h.blk_init_queue_ok st.seq then
    (some st.seq, { st with seq := st.seq + 1, held := Resource.rqueue st.seq :: st.held })
  else (none, { st with seq := st.seq + 1 })

def blk_alloc_queue (h : Host) (st : State) : Option Nat × State :=
  if h.blk_alloc_queue_ok st.seq then
    (some st.seq, { st with seq := st.seq + 1, held := Resource.rqueue st.seq :: st.held })
  else (none, { st with seq := st.seq + 1 })

def blk_cleanup_queue (st : State) (q : Nat) : State :=
  { st with held := st.held.erase (Resource.rqueue q) }

/-- `alloc_disk(minors)`: a zeroed `struct gendisk`. -/
def alloc_disk (h : Host) (st : State) : Option gendisk × State :=
  if h.alloc_disk_ok st.seq then
    (some { id := st.seq, major := 0, first_minor := 0, queue := none, private_data := none,
            disk_name := [], capacity := 0 },
      { st with seq := st.seq + 1, held := Resource.disk st.seq :: st.held })
  else (none, { st with seq := st.seq + 1 })

def add_disk (st : State) (gd : gendisk) : State :=
  { st with disks := st.disks ++ [gd] }

def del_gendisk (st : State) (gd : gendisk) : State :=
  { st with disks := st.disks.filter (fun d => d.id ≠ gd.id) }

def put_disk (st : State) (gd : gendisk) : State :=
  { st with held := st.held.erase (Resource.disk gd.id) }

/-! ## Device registry -/

/-- The teardown of one device inside `unregister_devices` (prbbd.c:162-173). -/
def unregister_device (st : State) (this : prbbd_dev) : State :=
  let st1 := match this.gd with
    | some gd => put_disk (del_gendisk st gd) gd
    | none => st
  let st2 := match this.queue with
    | some q => blk_cleanup_queue st1 q
    | none => st1
  let st3 := match this.data with
    | some m => iounmap st2 m
    | none => st2
  kfree st3 this.self

/-- `unregister_devices` (prbbd.c:157-175). The entries are freed without
`list_del`, so `prbbd_list` itself keeps its (now dangling) entries. -/
def unregister_devices (st : State) : State :=
  st.prbbd_list.foldl unregister_device st

/-- The `switch (REQUEST_MODE)` of `register_device` (prbbd.c:198-214): the queue,
and the message logged when there is none. -/
def register_device_queue (h : Host) (st : State) : (Option Nat × State) × String :=
  if REQUEST_MODE = RM_SIMPLE then (blk_init_queue h st, "blk_init_queue failed\n")
  else (blk_alloc_queue h st, "blk_alloc_queue failed\n")

/-- `register_device` (prbbd.c:177-243); `start` is a `resource_size_t` and `len`
an `unsigned long`. The labels `out2`, `out1`, `out0` are the nested releases
on the failing branches. `strcpy` is taken to copy the whole name into
`disk_name`, and the calls that only configure the queue leave no trace in the
state. -/
def register_device (a : Arch) (h : Host) (st : State) (name : List Char) (start len : Nat) :
    Int × State :=
  match kmalloc h st with
  | (none, st1) => (-ENOMEM, st1)
  | (some new, st1) =>
    let size := len / SECTOR_SIZE
    match ioremap h st1 start len with
    | (none, st2) => (- EIO, kfree (printk st2 "ioremap failed\n") new)
    | (some data, st2) =>
      match register_device_queue h st2 with
      | ((none, st3), msg) => (- EIO, kfree (iounmap (printk st3 msg) data) new)
      | ((some queue, st3), _) =>
        match alloc_disk h st3 with
        | (none, st4) => (- EIO, kfree (iounmap (printk st4 "alloc_disk failed\n") data) new)
        | (some gd, st4) =>
          let gd1 : gendisk :=
            { gd with major := st4.prbbd_major,
                      first_minor := PRBBD_MINORS * st4.register_device_i,
                      queue := some queue,
                      private_data := some new,
                      disk_name := name,
                      capacity := wrap a.ulong_bits (size * (SECTOR_SIZE / KERNEL_SECTOR_SIZE)) }
          let dev : prbbd_dev :=
            { self := new, size := size, data := some data, queue := some queue, gd := some gd1 }
          let st5 := add_disk st4 gd1
          (0, { st5 with prbbd_list := st5.prbbd_list ++ [dev],
                         register_device_i := st5.register_device_i + 1 })

/-! ## Descriptor parser -/

/-- `parse_name` (prbbd.c:245-262): the status, and on success the address and
content of the copy of `token`. -/
def parse_name (h : Host) (st : State) (token : List Char) :
    Int × Option (Nat × List Char) × State :=
  let len := token.length + 1
  if len > 64 then (-ENOSPC, none, st)
  else
    match kmalloc h st with
    | (none, st1) => (-ENOMEM, none, st1)
    | (some name, st1) => (0, some (name, token), st1)

/-- `parse_num` (prbbd.c:264-274): `memparse(token, NULL)`, a zero result being
the error. -/
def parse_num (h : Host) (token : List Char) : Int × Option Nat :=
  let result := h.memparse token
  if result = 0 then (-EINVAL, none)
  else (0, some result)

/-- Index of the last occurrence of `c` in `s` (`strrchr`), `none` for `NULL`. -/
def strrchr (s : List Char) (c : Char) : Option Nat :=
  match s with
  | [] => none
  | x :: xs =>
    match strrchr xs c with
    | some k => some (k + 1)
    | none => if x = c then some 0 else none

/-- `kill_final_newline` (prbbd.c:276-281). -/
def kill_final_newline (str : List Char) : List Char :=
  match strrchr str '\n' with
  | some newline => if newline + 1 = str.length then str.take newline else str
  | none => str

/-- The split `strsep` performs at the first `delim`: the token, and the rest
after the delimiter when there is one. -/
def strsep_split (delim : Char) : List Char → List Char × Option (List Char)
  | [] => ([], none)
  | c :: cs =>
    if c = delim then ([], some cs)
    else ((c :: (strsep_split delim cs).1), (strsep_split delim cs).2)

/-- `strsep(&str, delim)` for a one-character `delim`: the returned token and the
new value of `str`, both possibly `NULL`. -/
def strsep (stringp : Option (List Char)) (delim : Char) :
    Option (List Char) × Option (List Char) :=
  match stringp with
  | none => (none, none)
  | some s => (some (strsep_split delim s).1, (strsep_split delim s).2)

def strnlen (s : List Char) (maxlen : Nat) : Nat := min s.length maxlen

/-- The part of `prbbd_setup` after the field-count checks (prbbd.c:314-334). -/
def prbbd_setup_tokens (a : Arch) (h : Host) (st : State) (token0 token1 token2 : List Char) :
    Int × State :=
  match parse_name h st token0 with
  | (ret, none, st1) => (ret, st1)
  | (_, some (p, name), st1) =>
    match parse_num h token1 with
    | (_, none) => (1, printk (kfree st1 p) "illegal start address\n")
    | (_, some start) =>
      match parse_num h token2 with
      | (_, none) => (1, printk (kfree st1 p) "illegal device length\n")
      | (_, some len) =>
        let r := register_device a h st1 name (wrap a.resource_bits start) (wrap a.ulong_bits len)
        if r.1 = 0 then (r.1, printk r.2 "%s device: %#llx at %#llx\n")
        else r

/-- `prbbd_setup` (prbbd.c:289-335); `buf` has `64 + 20 + 20 + 1` bytes. Token 2
exists only when tokens 0 and 1 do, so the last branch is the test
`! token[2]`. -/
def prbbd_setup (a : Arch) (h : Host) (st : State) (val : List Char) : Int × State :=
  if strnlen val (64 + 20 + 20 + 1) ≥ 64 + 20 + 20 + 1 then
    (1, printk st "parameter too long\n")
  else
    let str := kill_final_newline val
    let r0 := strsep (some str) ','
    let r1 := strsep r0.2 ','
    let r2 := strsep r1.2 ','
    if r2.2.isSome then (1, printk st "too many arguments\n")
    else
      match r0.1, r1.1, r2.1 with
      | some token0, some token1, some token2 => prbbd_setup_tokens a h st token0 token1 token2
      | _, _, _ => (1, printk st "not enough arguments\n")

/-! ## Startup queue and module entry points -/

/-- `prbbd_param_call` (prbbd.c:337-364); `new->param` has 105 bytes. -/
def prbbd_param_call (h : Host) (st : State) (val : List Char) : Int × State :=
  let st0 := printk st "prbbd_param_call got: %s\n"
  match kmalloc h st0 with
  | (none, st1) => (-ENOMEM, st1)
  | (some new, st1) =>
    if val.length ≥ (64 + 20 + 20 + 1) - 1 then (-ENOSPC, kfree st1 new)
    else (0, { st1 with prbbd_param_list := st1.prbbd_param_list ++ [⟨new, val⟩] })

/-- The label `out0` of `init_prbbd` (prbbd.c:393-397): the entries still queued
are freed (and stay linked), and `ret` is returned. -/
def init_prbbd_out0 (st : State) (ret : Int) : Int × State :=
  (ret, st.prbbd_param_list.foldl (fun s this => kfree s this.self) st)

/-- The replay loop of `init_prbbd` (prbbd.c:381-390) over the queued entries. -/
def init_prbbd_loop (a : Arch) (h : Host) : List prbbd_param → State → Int × State
  | [], st => (0, st)
  | this :: rest, st =>
    let st1 := { st with prbbd_param_list := rest }
    let r := prbbd_setup a h st1 this.param
    let st2 := kfree r.2 this.self
    if r.1 ≠ 0 then init_prbbd_out0 (printk st2 "prbbd_setup failed\n") r.1
    else init_prbbd_loop a h rest st2

/-- `init_prbbd` (prbbd.c:370-398). A positive result of `register_blkdev` is a
major number now held. -/
def init_prbbd (a : Arch) (h : Host) (st : State) : Int × State :=
  let major := h.register_blkdev st.prbbd_major
  let st1 := { st with prbbd_major := major,
                       held := if 0 < major then Resource.blkdev major :: st.held else st.held }
  if major ≤ 0 then init_prbbd_out0 (printk st1 "register_blkdev failed\n") (- EIO)
  else init_prbbd_loop a h st1.prbbd_param_list st1

/-- `cleanup_prbbd` (prbbd.c:400-404). -/
def cleanup_prbbd (st : State) : State :=
  let st1 := unregister_devices st
  { st1 with held := st1.held.erase (Resource.blkdev st1.prbbd_major) }

/-! ## The kernel's number parser -/

/-- Value of a hexadecimal digit, `none` when `isxdigit` fails. -/
def xdigit_value (c : Char) : Option Nat :=
  if 48 ≤ c.toNat ∧ c.toNat ≤ 57 then some (c.toNat - 48)
  else if 97 ≤ c.toNat ∧ c.toNat ≤ 102 then some (c.toNat - 97 + 10)
  else if 65 ≤ c.toNat ∧ c.toNat ≤ 70 then some (c.toNat - 65 + 10)
  else none

/-- Base selection of `simple_strtoull(cp, &end, 0)`: 16 after `0x` followed by a
hexadecimal digit, 8 after any other leading `0`, else 10. -/
def simple_guess_base (cp : List Char) : Nat :=
  match cp with
  | [] => 10
  | c0 :: rest =>
    if c0 = '0' then
      match rest with
      | x :: d :: _ => if (x = 'x' ∨ x = 'X') ∧ (xdigit_value d).isSome then 16 else 8
      | _ => 8
    else 10

/-- The digit loop of `simple_strtoull`: accumulates in `unsigned long long` while
the next character is a digit of the base; returns the value and the rest. -/
def strtoull_digits (base : Nat) : List Char → Nat → Nat × List Char
  | [], acc => (acc, [])
  | c :: cs, acc =>
    match xdigit_value c with
    | some v => if v ≥ base then (acc, c :: cs) else strtoull_digits base cs (wrap 64 (acc * base + v))
    | none => (acc, c :: cs)

def simple_strtoull (cp : List Char) : Nat × List Char :=
  let base := simple_guess_base cp
  strtoull_digits base (if base = 16 then cp.drop 2 else cp) 0

/-- Modelled from the spec: `memparse` is a routine of the host kernel and not
part of prbbd.c. It reads an octal (`0...`), decimal or hexadecimal (`0x...`)
numeral from the front of the text, multiplies by 1024, 1024², 1024³ for a
following `K`, `M`, `G` (either case), and returns the value as an
`unsigned long long`; the driver passes `NULL` for the end pointer, so the
text after the numeral and suffix is not reported. -/
def linux_memparse (ptr : List Char) : Nat :=
  let r := simple_strtoull ptr
  match r.2 with
  | [] => r.1
  | c :: _ =>
    if c = 'G' ∨ c = 'g' then wrap 64 (r.1 <<< 30)
    else if c = 'M' ∨ c = 'm' then wrap 64 (r.1 <<< 20)
    else if c = 'K' ∨ c = 'k' then wrap 64 (r.1 <<< 10)
    else r.1

/-- A kernel in which every allocation succeeds, a fresh major number is 254
and physical memory holds zeroes. -/
def host_ok : Host :=
  { kmalloc_ok := fun _ => true, ioremap_ok := fun _ _ _ => true,
    blk_init_queue_ok := fun _ => true, blk_alloc_queue_ok := fun _ => true,
    alloc_disk_ok := fun _ => true,
    register_blkdev := fun m => if m = 0 then 254 else 0,
    phys := fun _ => 0, memparse := linux_memparse }

/-- The kernel `host_ok` except that `alloc_disk` fails. -/
def host_no_disk : Host := { host_ok with alloc_disk_ok := fun _ => false }

/-- The state before any parameter is delivered. -/
def boot : State :=
  { prbbd_param_list := [], prbbd_list := [], prbbd_major := 0, register_device_i := 0,
    seq := 0, held := [], disks := [], log := [] }

/-- The startup queue after the parameters `test,0x1000000,0x1000`,
`swap,0x2000000,0x2000` and `bad` are delivered in this order. -/
def boot_two_valid_one_malformed : State :=
  let s1 := (prbbd_param_call host_ok boot "test,0x1000000,0x1000".toList).2
  let s2 := (prbbd_param_call host_ok s1 "swap,0x2000000,0x2000".toList).2
  (prbbd_param_call host_ok s2 "bad".toList).2

/-- Whether `c` is a decimal digit (`isdigit`). -/
def is_decimal (c : Char) : Bool := decide (48 ≤ c.toNat ∧ c.toNat ≤ 57)

/-- Whether `c` is an octal digit. -/
def is_octal (c : Char) : Bool := decide (48 ≤ c.toNat ∧ c.toNat ≤ 55)

/-- Whether the text begins with a decimal digit. -/
def starts_with_digit : List Char → Bool
  | [] => false
  | c :: _ => is_decimal c

/-- Value of a digit string in `base`, as a mathematical integer. -/
def digits_value (base : Nat) (ds : List Char) : Nat :=
  ds.foldl (fun acc c => acc * base + (xdigit_value c).getD 0) 0

/-- The multiplier of a magnitude suffix of the claim: `K`, `M` or `G`. -/
def spec_suffix (c : Char) : Option Nat :=
  if c = 'K' then some 1024
  else if c = 'M' then some (1024 * 1024)
  else if c = 'G' then some (1024 * 1024 * 1024)
  else none

/-- The text without its one optional trailing suffix. -/
def spec_body (s : List Char) : List Char :=
  match s.getLast? with
  | some c => if (spec_suffix c).isSome then s.dropLast else s
  | none => s

/-- The multiplier of the optional trailing suffix, 1 without one. -/
def spec_multiplier (s : List Char) : Nat :=
  match s.getLast? with
  | some c => (spec_suffix c).getD 1
  | none => 1

/-- Whether a suffix-free text is entirely a numeral: `0x` and hexadecimal
digits, `0` and octal digits, or decimal digits not starting with `0`. -/
def spec_body_ok : List Char → Bool
  | [] => false
  | c0 :: rest =>
    if c0 = '0' then
      match rest with
      | [] => true
      | x :: ds =>
        if x = 'x' ∨ x = 'X' then !ds.isEmpty && ds.all (fun d => (xdigit_value d).isSome)
        else rest.all is_octal
    else (c0 :: rest).all is_decimal

/-- The number a suffix-free numeral denotes. -/
def spec_body_value : List Char → Nat
  | [] => 0
  | c0 :: rest =>
    if c0 = '0' then
      match rest with
      | [] => 0
      | x :: ds => if x = 'x' ∨ x = 'X' then digits_value 16 ds else digits_value 8 rest
    else digits_value 10 (c0 :: rest)

/-- The claim's reading of a numeric field: an octal (`0...`), decimal or
hexadecimal (`0x...`) numeral, the whole of the text but for one optional
trailing `K`, `M` or `G`. -/
def spec_numeral (s : List Char) : Bool := spec_body_ok (spec_body s)

/-- The number a well-formed field denotes: the numeral times 1024, 1024² or
1024³ for the suffix, as a mathematical integer. -/
def spec_value (s : List Char) : Nat := spec_body_value (spec_body s) * spec_multiplier s

/-- The disk record `register_device` publishes when it is entered in state `st`
and every allocation succeeds (prbbd.c:218-229). -/
def registered_disk (a : Arch) (st : State) (name : List Char) (len : Nat) : gendisk :=
  { id := st.seq + 3,
    major := st.prbbd_major,
    first_minor := PRBBD_MINORS * st.register_device_i,
    queue := some (st.seq + 2),
    private_data := some st.seq,
    disk_name := name,
    capacity := wrap a.ulong_bits (len / SECTOR_SIZE * (SECTOR_SIZE / KERNEL_SECTOR_SIZE)) }

/-- The device record `register_device` lists when it is entered in state `st`
and every allocation succeeds. -/
def registered_dev (a : Arch) (h : Host) (st : State) (name : List Char) (start len : Nat) :
    prbbd_dev :=
  { self := st.seq,
    size := len / SECTOR_SIZE,
    data := some ⟨st.seq + 1, (List.range len).map (fun k => h.phys (start + k))⟩,
    queue := some (st.seq + 2),
    gd := some (registered_disk a st name len) }

/-- The outcome of `prbbd_setup` when a number is refused: the result 1, the
name copy allocated and freed again, `msg` logged, nothing else touched. -/
def prbbd_setup_refuses (st : State) (msg : String) : Int × State :=
  (1, { st with seq := st.seq + 1, log := st.log ++ [msg] })

/-- The outcome of `prbbd_setup` when both numbers pass: `register_device` is
called with the name copy and the two values converted to `resource_size_t` and
`unsigned long`, and its success is logged (prbbd.c:330-334). -/
def prbbd_setup_accepts (a : Arch) (h : Host) (st : State) (name : List Char)
    (start len : Nat) : Int × State :=
  if (register_device a h (kmalloc h st).2 name (wrap a.resource_bits start)
        (wrap a.ulong_bits len)).1 = 0 then
    ((register_device a h (kmalloc h st).2 name (wrap a.resource_bits start)
        (wrap a.ulong_bits len)).1,
      printk (register_device a h (kmalloc h st).2 name (wrap a.resource_bits start)
        (wrap a.ulong_bits len)).2 "%s device: %#llx at %#llx\n")
  else register_device a h (kmalloc h st).2 name (wrap a.resource_bits start)
        (wrap a.ulong_bits len)

/-! # Properties -/

/-! ## Transfer engine -/

theorem shl9 (x : Nat) : x <<< 9 = x * 512 := by
  simp [Nat.shiftLeft_eq]

theorem wrap_of_lt {bits x : Nat} (h : x < 2 ^ bits) : wrap bits x = x :=
  Nat.mod_eq_of_lt h

theorem take_drop_splice (pre mid post : List Nat) (off n : Nat)
    (hoff : pre.length = off) (hn : mid.length = n) :
    ((pre ++ mid ++ post).drop off).take n = mid := by
  subst hoff hn
  simp

/-- C1. Round trip: on a device as `register_device` builds it, for sectors `S`
and counts `N` with `(S+N)*512` within the capacity in bytes, writing `N*512`
bytes of `buf` at sector `S` succeeds, leaves `buf` alone, and a following read
of `N` sectors from `S` into `rbuf` puts exactly the written bytes into the
first `N*512` bytes of `rbuf`. -/
theorem prbbd_transfer_write_read (a : Arch) (dev : prbbd_dev) (S N : Nat)
    (buf rbuf : List Nat)
    (hdev : dev.mapped a)
    (hrange : (S + N) * 512 ≤ capacity_bytes dev)
    (hbuf : N * 512 ≤ buf.length) (hrbuf : N * 512 ≤ rbuf.length) :
    ∃ dev1, prbbd_transfer a dev S N buf true = some (dev1, buf) ∧
      prbbd_transfer a dev1 S N rbuf false
        = some (dev1, buf.take (N * 512) ++ rbuf.drop (N * 512)) := by
  obtain ⟨m, hm, hsize, hlen⟩ := hdev
  have hcap : dev.size * 512 ≤ m.bytes.length := by
    rw [hsize]; exact Nat.div_mul_le_self _ _
  unfold capacity_bytes at hrange
  have hS : S * 512 < 2 ^ a.ulong_bits := by omega
  have hN : N * 512 < 2 ^ a.ulong_bits := by omega
  have hSN : S * 512 + N * 512 < 2 ^ a.ulong_bits := by omega
  have hsz : dev.size * 512 < 2 ^ a.ulong_bits := by omega
  have hle : ¬ (S * 512 + N * 512 > dev.size * 512) := by omega
  have hin : S * 512 + N * 512 ≤ m.bytes.length := by omega
  refine ⟨{ dev with data := some { m with bytes := (m.bytes.take (S * 512)
      ++ buf.take (N * 512) ++ m.bytes.drop (S * 512 + N * 512)) } }, ?_, ?_⟩
  · simp [prbbd_transfer, KERNEL_SECTOR_SIZE_SHIFT, SECTOR_SIZE_SHIFT, shl9, wrap_of_lt hS,
      wrap_of_lt hN, wrap_of_lt hSN, wrap_of_lt hsz, hle, hm, memcpy_toio, hin, hbuf]
  · have hlen2 : S * 512 + N * 512 ≤
        (m.bytes.take (S * 512) ++ buf.take (N * 512)
          ++ m.bytes.drop (S * 512 + N * 512)).length := by
      simp only [List.length_append, List.length_take, List.length_drop]
      omega
    have hsplice := take_drop_splice (m.bytes.take (S * 512)) (buf.take (N * 512))
      (m.bytes.drop (S * 512 + N * 512)) (S * 512) (N * 512)
      (by simp only [List.length_take]; omega) (by simp only [List.length_take]; omega)
    simp only [prbbd_transfer, KERNEL_SECTOR_SIZE_SHIFT, SECTOR_SIZE_SHIFT, shl9, wrap_of_lt hS,
      wrap_of_lt hN, wrap_of_lt hSN, wrap_of_lt hsz, hle, if_false, memcpy_fromio, hlen2, hrbuf,
      and_self, if_true, Option.map_some', hsplice, Bool.false_eq_true]

set_option maxRecDepth 100000 in
theorem prbbd_transfer_write_read_witness :
    ∃ dev1, prbbd_transfer Arch.lp64 dev0 0 1 (List.replicate 512 7) true
        = some (dev1, List.replicate 512 7) ∧
      prbbd_transfer Arch.lp64 dev1 0 1 (List.replicate 512 9) false
        = some (dev1, (List.replicate 512 7).take (1 * 512) ++ (List.replicate 512 9).drop (1 * 512)) :=
  prbbd_transfer_write_read Arch.lp64 dev0 0 1 (List.replicate 512 7) (List.replicate 512 9)
    ⟨⟨1, List.replicate 512 0⟩, rfl, by decide, by decide⟩ (by decide) (by decide) (by decide)

/-- Without wrap-around the bound check does what is asked of it: if
`(S+N)*512` exceeds the capacity in bytes and still fits `unsigned long`, the
transfer is dropped and neither the device nor the buffer changes. -/
theorem prbbd_transfer_beyond_end_dropped (a : Arch) (dev : prbbd_dev) (S N : Nat)
    (buf : List Nat) (write : Bool)
    (hfit : (S + N) * 512 < 2 ^ a.ulong_bits)
    (hout : (S + N) * 512 > capacity_bytes dev) :
    prbbd_transfer a dev S N buf write = some (dev, buf) := by
  unfold capacity_bytes at hout
  have hS : S * 512 < 2 ^ a.ulong_bits := by omega
  have hN : N * 512 < 2 ^ a.ulong_bits := by omega
  have hSN : S * 512 + N * 512 < 2 ^ a.ulong_bits := by omega
  have hsz : dev.size * 512 < 2 ^ a.ulong_bits := by omega
  have hgt : S * 512 + N * 512 > dev.size * 512 := by omega
  simp [prbbd_transfer, KERNEL_SECTOR_SIZE_SHIFT, SECTOR_SIZE_SHIFT, shl9, wrap_of_lt hS,
    wrap_of_lt hN, wrap_of_lt hSN, wrap_of_lt hsz, hgt]

set_option maxRecDepth 100000 in
/-- C2 at sector `2 ^ 55`, count 1, on a one-sector device of a 64-bit kernel:
`(S+N)*512` is `2 ^ 64 + 512`, far beyond the capacity of 512 bytes, but
`sector << 9` wraps to offset 0 in `unsigned long`, the bound check passes, and
the write replaces the 512 mapped bytes by the buffer. -/
theorem prbbd_transfer_wrapped_sector_copies :
    (2 ^ 55 + 1) * 512 > capacity_bytes dev0 ∧
    prbbd_transfer Arch.lp64 dev0 (2 ^ 55) 1 (List.replicate 512 7) true
      = some ({ dev0 with data := some ⟨1, List.replicate 512 7⟩ }, List.replicate 512 7) := by
  decide

/-! ## Geometry -/

theorem and_not_0x3f_shr (w x : Nat) (hw : 6 ≤ w) (hx : x < 2 ^ w) :
    (x &&& (2 ^ w - 1 - 0x3f)) >>> 6 = x / 64 := by
  have hmask : 2 ^ w - 1 - 0x3f = 2 ^ 6 * (2 ^ (w - 6) - 1) := by
    have hp : 2 ^ w = 2 ^ 6 * 2 ^ (w - 6) := by
      rw [← pow_add]; congr 1; omega
    have h1 : 1 ≤ 2 ^ (w - 6) := Nat.one_le_two_pow
    rw [Nat.mul_sub, ← hp]
    norm_num
    omega
  apply Nat.eq_of_testBit_eq
  intro i
  rw [Nat.testBit_shiftRight, Nat.testBit_and, hmask, Nat.testBit_mul_pow_two,
    Nat.testBit_two_pow_sub_one]
  have hdiv : x / 64 = x >>> 6 := by rw [Nat.shiftRight_eq_div_pow]
  rw [hdiv, Nat.testBit_shiftRight]
  by_cases hi : 6 + i < w
  · simp; omega
  · have hge : x < 2 ^ (6 + i) :=
      lt_of_lt_of_le hx (Nat.pow_le_pow_right (by decide) (by omega))
    simp [Nat.testBit_lt_two_pow hge]

/-- C10, as stated, fails: on a 2 GiB device the capacity is `4194304` sectors,
`floor(capacity / 64)` is `65536`, and the `unsigned short` field `cylinders`
receives `0`, so `capacity < (cylinders + 1) * 64` is false. -/
theorem prbbd_getgeo_cylinders_truncated :
    capacity_sectors Arch.lp64 dev_2g = 4194304 ∧
    (prbbd_getgeo Arch.lp64 linux_hdreg dev_2g).2.cylinders = 0 ∧
    (prbbd_getgeo Arch.lp64 linux_hdreg dev_2g).2.cylinders
      ≠ capacity_sectors Arch.lp64 dev_2g / 64 ∧
    ¬ capacity_sectors Arch.lp64 dev_2g
        < ((prbbd_getgeo Arch.lp64 linux_hdreg dev_2g).2.cylinders + 1) * 64 := by
  decide

/-- C10, amended. `prbbd_getgeo` returns 0 and reports heads = 4,
sectors-per-track = 16, start = 0 and cylinders = `floor(capacity / 64)` reduced
modulo `2 ^ c`, where `c` is the width of the field `cylinders` (16 for the
`unsigned short` of `<linux/hdreg.h>`); when `floor(capacity / 64)` fits the
field (for 16 bits: capacity below `4194304` sectors) the reduction is the
identity, cylinders = `floor(capacity / 64)`, and
`cylinders * heads * sectors <= capacity < (cylinders + 1) * 64`. -/
theorem prbbd_getgeo_spec (a : Arch) (g : hd_geometry_bits) (dev : prbbd_dev)
    (hw : 6 ≤ a.ulong_bits) (hh : 3 ≤ g.heads) (hs : 5 ≤ g.sectors) :
    prbbd_getgeo a g dev
      = (0, { heads := 4, sectors := 16,
              cylinders := capacity_sectors a dev / 64 % 2 ^ g.cylinders, start := 0 }) ∧
    (capacity_sectors a dev / 64 < 2 ^ g.cylinders →
      (prbbd_getgeo a g dev).2.cylinders = capacity_sectors a dev / 64 ∧
      (prbbd_getgeo a g dev).2.cylinders * (prbbd_getgeo a g dev).2.heads
          * (prbbd_getgeo a g dev).2.sectors ≤ capacity_sectors a dev ∧
      capacity_sectors a dev < ((prbbd_getgeo a g dev).2.cylinders + 1) * 64) := by
  have hlt : capacity_sectors a dev < 2 ^ a.ulong_bits :=
    Nat.mod_lt _ (Nat.two_pow_pos _)
  have hmask := and_not_0x3f_shr a.ulong_bits (capacity_sectors a dev) hw hlt
  have h4 : wrap g.heads 4 = 4 :=
    wrap_of_lt (lt_of_lt_of_le (by decide : 4 < 2 ^ 3) (Nat.pow_le_pow_right (by decide) hh))
  have h16 : wrap g.sectors 16 = 16 :=
    wrap_of_lt (lt_of_lt_of_le (by decide : 16 < 2 ^ 5) (Nat.pow_le_pow_right (by decide) hs))
  have hgeo : prbbd_getgeo a g dev
      = (0, { heads := 4, sectors := 16,
              cylinders := capacity_sectors a dev / 64 % 2 ^ g.cylinders, start := 0 }) := by
    simp only [prbbd_getgeo, not_0x3f, hmask, h4, h16]
    simp [wrap]
  refine ⟨hgeo, fun hcap => ?_⟩
  have hsmall : capacity_sectors a dev / 64 % 2 ^ g.cylinders = capacity_sectors a dev / 64 :=
    Nat.mod_eq_of_lt hcap
  simp only [hgeo, hsmall, true_and]
  clear hmask hgeo hsmall hcap
  omega

theorem prbbd_getgeo_spec_witness :
    prbbd_getgeo Arch.lp64 linux_hdreg dev0
      = (0, { heads := 4, sectors := 16,
              cylinders := capacity_sectors Arch.lp64 dev0 / 64 % 2 ^ linux_hdreg.cylinders,
              start := 0 }) ∧
    (capacity_sectors Arch.lp64 dev0 / 64 < 2 ^ linux_hdreg.cylinders →
      (prbbd_getgeo Arch.lp64 linux_hdreg dev0).2.cylinders
        = capacity_sectors Arch.lp64 dev0 / 64 ∧
      (prbbd_getgeo Arch.lp64 linux_hdreg dev0).2.cylinders
          * (prbbd_getgeo Arch.lp64 linux_hdreg dev0).2.heads
          * (prbbd_getgeo Arch.lp64 linux_hdreg dev0).2.sectors
        ≤ capacity_sectors Arch.lp64 dev0 ∧
      capacity_sectors Arch.lp64 dev0
        < ((prbbd_getgeo Arch.lp64 linux_hdreg dev0).2.cylinders + 1) * 64) :=
  prbbd_getgeo_spec Arch.lp64 linux_hdreg dev0 (by decide) (by decide) (by decide)

/-! ## Segment-based dispatch -/

theorem prbbd_transfer_write_ok (a : Arch) (dev : prbbd_dev) (m : iomem) (S N : Nat)
    (buf : List Nat) (hm : dev.data = some m)
    (hin : S * 512 + N * 512 ≤ dev.size * 512) (hcap : dev.size * 512 ≤ m.bytes.length)
    (hw : m.bytes.length < 2 ^ a.ulong_bits) (hbuf : N * 512 ≤ buf.length) :
    prbbd_transfer a dev S N buf true
      = some ({ dev with data := some { m with bytes := (m.bytes.take (S * 512)
          ++ buf.take (N * 512) ++ m.bytes.drop (S * 512 + N * 512)) } }, buf) := by
  have hS : S * 512 < 2 ^ a.ulong_bits := by omega
  have hN : N * 512 < 2 ^ a.ulong_bits := by omega
  have hSN : S * 512 + N * 512 < 2 ^ a.ulong_bits := by omega
  have hsz : dev.size * 512 < 2 ^ a.ulong_bits := by omega
  have hle : ¬ (S * 512 + N * 512 > dev.size * 512) := by omega
  have hin2 : S * 512 + N * 512 ≤ m.bytes.length := by omega
  simp [prbbd_transfer, KERNEL_SECTOR_SIZE_SHIFT, SECTOR_SIZE_SHIFT, shl9, wrap_of_lt hS,
    wrap_of_lt hN, wrap_of_lt hSN, wrap_of_lt hsz, hle, hm, memcpy_toio, hin2, hbuf]

theorem prbbd_xfer_bio_loop_cons (a : Arch) (cur : bio → Option Nat) (i : Nat)
    (rest : List Nat) (prbbd prbbd1 : prbbd_dev) (b : bio) (sector : Nat)
    (bvec : bio_vec) (bytes : Nat) (buffer1 : List Nat)
    (hv : b.bi_io_vec.get? i = some bvec) (hc : cur b = some bytes)
    (ht : prbbd_transfer a prbbd sector (bytes >>> KERNEL_SECTOR_SIZE_SHIFT) bvec.buffer
      b.bi_write = some (prbbd1, buffer1)) :
    prbbd_xfer_bio_loop a cur (i :: rest) prbbd b sector
      = prbbd_xfer_bio_loop a cur rest prbbd1
          { b with bi_io_vec := b.bi_io_vec.set i { bvec with buffer := buffer1 } }
          (wrap a.sector_bits (sector + bytes >>> KERNEL_SECTOR_SIZE_SHIFT)) := by
  simp only [prbbd_xfer_bio_loop, hv, hc, ht]

theorem xfer_two_segments (d0 b1 b2 : List Nat) (h0 : d0.length = 2048)
    (h1 : b1.length = 512) (h2 : b2.length = 1024) :
    (prbbd_xfer_bio Arch.lp64
        { self := 0, size := 4, data := some ⟨1, d0⟩, queue := some 2, gd := none }
        { bi_sector := 0, bi_write := true, bi_idx := 0, bi_size := 1536,
          bi_io_vec := [⟨b1, 512⟩, ⟨b2, 1024⟩] }).map (fun r => (r.1, r.2.1.contents))
      = some (0, b1 ++ b2.take 512 ++ d0.drop 1024) := by
  have hlt : (2048 : Nat) < 2 ^ Arch.lp64.ulong_bits := by decide
  have t1 := prbbd_transfer_write_ok Arch.lp64
    { self := 0, size := 4, data := some ⟨1, d0⟩, queue := some 2, gd := none } ⟨1, d0⟩ 0 1 b1 rfl
    (by simp) (by simp [h0]) (by simp only [h0]; exact hlt) (by simp [h1])
  have e1 : (List.take (0 * 512) d0 ++ List.take (1 * 512) b1 ++ List.drop (0 * 512 + 1 * 512) d0)
      = b1 ++ d0.drop 512 := by
    have : List.take 512 b1 = b1 := by rw [← h1, List.take_length]
    simp [this]
  simp only [e1] at t1
  have hl1 : (b1 ++ d0.drop 512).length = 2048 := by simp [h0, h1]
  have t2 := prbbd_transfer_write_ok Arch.lp64
    { self := 0, size := 4, data := some ⟨1, b1 ++ d0.drop 512⟩, queue := some 2, gd := none }
    ⟨1, b1 ++ d0.drop 512⟩ 1 1 b2 rfl
    (by simp) (by simp only [hl1]; decide) (by simp only [hl1]; exact hlt) (by simp [h2])
  have e2 : (List.take (1 * 512) (b1 ++ d0.drop 512) ++ List.take (1 * 512) b2
      ++ List.drop (1 * 512 + 1 * 512) (b1 ++ d0.drop 512))
      = b1 ++ b2.take 512 ++ d0.drop 1024 := by
    have ha : List.take 512 (b1 ++ d0.drop 512) = b1 := by rw [← h1, List.take_left]
    have hb : List.drop 1024 (b1 ++ d0.drop 512) = d0.drop 1024 := by
      rw [List.drop_append_eq_append_drop]; simp [h1]
    simp [ha, hb]
  simp only [e2] at t2
  have s1 := prbbd_xfer_bio_loop_cons Arch.lp64 bio_cur_bytes 0 [1]
    { self := 0, size := 4, data := some ⟨1, d0⟩, queue := some 2, gd := none }
    { self := 0, size := 4, data := some ⟨1, b1 ++ d0.drop 512⟩, queue := some 2, gd := none }
    { bi_sector := 0, bi_write := true, bi_idx := 0, bi_size := 1536,
      bi_io_vec := [⟨b1, 512⟩, ⟨b2, 1024⟩] } 0 ⟨b1, 512⟩ 512 b1 rfl rfl t1
  have s2 := prbbd_xfer_bio_loop_cons Arch.lp64 bio_cur_bytes 1 []
    { self := 0, size := 4, data := some ⟨1, b1 ++ d0.drop 512⟩, queue := some 2, gd := none }
    { self := 0, size := 4, data := some ⟨1, b1 ++ b2.take 512 ++ d0.drop 1024⟩,
      queue := some 2, gd := none }
    { bi_sector := 0, bi_write := true, bi_idx := 0, bi_size := 1536,
      bi_io_vec := [⟨b1, 512⟩, ⟨b2, 1024⟩] } 1 ⟨b2, 1024⟩ 512 b2 rfl rfl t2
  have hr : prbbd_xfer_bio Arch.lp64
        { self := 0, size := 4, data := some ⟨1, d0⟩, queue := some 2, gd := none }
        { bi_sector := 0, bi_write := true, bi_idx := 0, bi_size := 1536,
          bi_io_vec := [⟨b1, 512⟩, ⟨b2, 1024⟩] }
      = (prbbd_xfer_bio_loop Arch.lp64 bio_cur_bytes [0, 1]
          { self := 0, size := 4, data := some ⟨1, d0⟩, queue := some 2, gd := none }
          { bi_sector := 0, bi_write := true, bi_idx := 0, bi_size := 1536,
            bi_io_vec := [⟨b1, 512⟩, ⟨b2, 1024⟩] } 0).map (fun r => (0, r.1, r.2)) := rfl
  rw [hr, s1]
  exact (congrArg (fun o => (o.map (fun r => ((0 : Int), r.1, r.2))).map
    (fun r => (r.1, r.2.1.contents))) s2).trans rfl

theorem prbbd_transfer_write_cases (a : Arch) (dev : prbbd_dev) (S N : Nat) (buf : List Nat)
    (r : prbbd_dev × List Nat) (h : prbbd_transfer a dev S N buf true = some r) :
    (r = (dev, buf) ∧
      wrap a.ulong_bits (wrap a.ulong_bits (S <<< 9) + wrap a.ulong_bits (N <<< 9))
        > wrap a.ulong_bits (dev.size <<< 9)) ∨
    ∃ m, dev.data = some m ∧
      wrap a.ulong_bits (S <<< 9) + wrap a.ulong_bits (N <<< 9) ≤ m.bytes.length ∧
      wrap a.ulong_bits (N <<< 9) ≤ buf.length ∧
      r.2 = buf ∧ r.1.size = dev.size ∧
      r.1.data = some ⟨m.addr, m.bytes.take (wrap a.ulong_bits (S <<< 9))
        ++ buf.take (wrap a.ulong_bits (N <<< 9))
        ++ m.bytes.drop (wrap a.ulong_bits (S <<< 9) + wrap a.ulong_bits (N <<< 9))⟩ := by
  unfold prbbd_transfer at h
  simp only [KERNEL_SECTOR_SIZE_SHIFT, SECTOR_SIZE_SHIFT] at h
  split_ifs at h with hgt
  · left
    exact ⟨(Option.some.inj h).symm, hgt⟩
  · right
    cases hd : dev.data with
    | none => simp [hd] at h
    | some m =>
      simp only [hd, memcpy_toio, if_true] at h
      split_ifs at h with hin
      · refine ⟨m, rfl, hin.1, hin.2, ?_⟩
        have hr := (Option.some.inj h).symm
        subst hr
        exact ⟨rfl, rfl, rfl⟩
      · simp at h

theorem count_splice_le (io src : List Nat) (off n v : Nat) :
    (io.take off ++ src.take n ++ io.drop (off + n)).count v ≤ io.count v + n := by
  have h1 : io.count v = (io.take off).count v + (io.drop off).count v := by
    rw [← List.count_append, List.take_append_drop]
  have h2 : (io.drop (off + n)).count v ≤ (io.drop off).count v := by
    have : io.drop (off + n) = (io.drop off).drop n := by rw [List.drop_drop, Nat.add_comm]
    rw [this]
    exact (List.drop_sublist _ _).count_le _
  have h3 : (src.take n).count v ≤ n :=
    le_trans (List.count_le_length _ _) (by simp [List.length_take])
  simp only [List.count_append]
  omega


theorem wrap_lt (bits x : Nat) : wrap bits x < 2 ^ bits :=
  Nat.mod_lt _ (Nat.two_pow_pos _)

theorem wrap_shl9_wrap (bits x : Nat) : wrap bits (wrap bits x <<< 9) = wrap bits (x <<< 9) := by
  simp only [wrap, shl9, Nat.mod_mul_mod]

theorem prbbd_xfer_bio_loop_cons_inv (a : Arch) (cur : bio → Option Nat) (i : Nat)
    (rest : List Nat) (prbbd : prbbd_dev) (b : bio) (sector : Nat) (r : prbbd_dev × bio)
    (h : prbbd_xfer_bio_loop a cur (i :: rest) prbbd b sector = some r) :
    ∃ bvec bytes prbbd1 buffer1,
      b.bi_io_vec.get? i = some bvec ∧ cur b = some bytes ∧
      prbbd_transfer a prbbd sector (bytes >>> 9) bvec.buffer b.bi_write
        = some (prbbd1, buffer1) ∧
      prbbd_xfer_bio_loop a cur rest prbbd1
        { b with bi_io_vec := b.bi_io_vec.set i { bvec with buffer := buffer1 } }
        (wrap a.sector_bits (sector + bytes >>> 9)) = some r := by
  rw [prbbd_xfer_bio_loop] at h
  split at h
  · rename_i bvec bytes hv hc
    simp only [KERNEL_SECTOR_SIZE_SHIFT] at h
    split at h
    · exact absurd h (by simp)
    · rename_i prbbd1 buffer1 ht
      exact ⟨bvec, bytes, prbbd1, buffer1, hv, hc, ht, h⟩
  · exact absurd h (by simp)

theorem xfer_two_segments_any_cur (cur : bio → Option Nat) (prbbd : prbbd_dev) (b : bio)
    (addr : Nat) (d0 b1 b2 : List Nat)
    (hsize : prbbd.size = 4) (hdata : prbbd.data = some ⟨addr, d0⟩)
    (hvec : b.bi_io_vec = [⟨b1, 512⟩, ⟨b2, 1024⟩]) (hwrite : b.bi_write = true)
    (h0 : d0.length = 2048) (h1 : b1.length = 512)
    (hz : d0.count 2 = 0) (hb : b1.count 2 = 0) (r : prbbd_dev × bio)
    (h : prbbd_xfer_bio_loop Arch.lp64 cur [0, 1] prbbd b 0 = some r) :
    r.1.contents.count 2 ≤ 512 := by
  obtain ⟨bvec, bytes, dev1, buf1, hv, hc, ht1, h⟩ :=
    prbbd_xfer_bio_loop_cons_inv _ _ _ _ _ _ _ _ h
  have hbvec : bvec = ⟨b1, 512⟩ := by
    rw [hvec] at hv
    exact (Option.some.inj hv).symm
  subst hbvec
  rw [hwrite] at ht1
  have hsame : ({ b with bi_io_vec := b.bi_io_vec.set 0 { buffer := b1, bv_len := 512 } } : bio)
      = b := by
    cases b
    simp only [bio.mk.injEq, true_and] at hvec ⊢
    rw [hvec]
    rfl
  -- first segment
  have hnb := wrap_lt Arch.lp64.ulong_bits ((bytes >>> 9) <<< 9)
  have hoff0 : wrap Arch.lp64.ulong_bits (0 <<< 9) = 0 := by decide
  have c1 : buf1 = b1 ∧ dev1.size = 4 ∧ ∃ d1, dev1.data = some ⟨addr, d1⟩ ∧ d1.length = 2048 ∧
      d1.count 2 = 0 ∧
      (wrap Arch.lp64.ulong_bits ((bytes >>> 9) <<< 9) ≤ 512 ∨
        2048 < wrap Arch.lp64.ulong_bits ((bytes >>> 9) <<< 9)) := by
    rcases prbbd_transfer_write_cases _ _ _ _ _ _ ht1 with ⟨hr, hgt⟩ | ⟨m, hm, hin, hbuf, hr2, hsz, hd⟩
    · have hr1 : dev1 = prbbd := congrArg Prod.fst hr
      have hr2 : buf1 = b1 := congrArg Prod.snd hr
      subst hr1
      refine ⟨hr2, hsize, d0, hdata, h0, hz, Or.inr ?_⟩
      rw [hoff0, Nat.zero_add, wrap_of_lt hnb, hsize] at hgt
      exact hgt
    · rw [hdata] at hm
      have hm2 : m = ⟨addr, d0⟩ := (Option.some.inj hm).symm
      subst hm2
      rw [hoff0] at hin hd
      simp only [Nat.zero_add, List.take_zero, List.nil_append] at hin hd
      refine ⟨hr2, hsz.trans hsize, _, hd, ?_, ?_, Or.inl (by simpa [h1] using hbuf)⟩
      · simp only [List.length_append, List.length_take, List.length_drop, h0, h1] at hbuf ⊢
        omega
      · have := count_splice_le d0 b1 0 (wrap Arch.lp64.ulong_bits ((bytes >>> 9) <<< 9)) 2
        have hcnt : (List.take (wrap Arch.lp64.ulong_bits ((bytes >>> 9) <<< 9)) b1).count 2 = 0 :=
          Nat.le_zero.mp (hb ▸ (List.take_sublist _ _).count_le 2)
        have hcnt2 : (List.drop (wrap Arch.lp64.ulong_bits ((bytes >>> 9) <<< 9)) d0).count 2 = 0 :=
          Nat.le_zero.mp (hz ▸ (List.drop_sublist _ _).count_le 2)
        simp only [List.count_append, hcnt, hcnt2]
  obtain ⟨hbuf1, hsize1, d1, hdata1, hlen1, hcount1, hnb1⟩ := c1
  subst hbuf1
  simp only [hsame] at h
  -- second segment
  obtain ⟨bvec2, bytes2, dev2, buf2, hv2, hc2, ht2, hnil⟩ :=
    prbbd_xfer_bio_loop_cons_inv _ _ _ _ _ _ _ _ h
  have hbytes : bytes2 = bytes := Option.some.inj (hc2.symm.trans hc)
  subst hbytes
  rw [hwrite] at ht2
  have hr : r.1 = dev2 := by
    rw [prbbd_xfer_bio_loop] at hnil
    exact (congrArg Prod.fst (Option.some.inj hnil)).symm
  rw [hr]
  rcases prbbd_transfer_write_cases _ _ _ _ _ _ ht2 with ⟨hdrop, _⟩ | ⟨m, hm, hin, _, _, _, hd⟩
  · have hdev : dev2 = dev1 := congrArg Prod.fst hdrop
    rw [hdev]
    simp [prbbd_dev.contents, hdata1, hcount1]
  · rw [hdata1] at hm
    have hm2 : m = ⟨addr, d1⟩ := (Option.some.inj hm).symm
    subst hm2
    simp only [hlen1] at hin
    have hle : wrap Arch.lp64.ulong_bits ((bytes2 >>> 9) <<< 9) ≤ 512 := by
      rcases hnb1 with hsmall | hbig
      · exact hsmall
      · omega
    have hcnt := count_splice_le d1 bvec2.buffer
      (wrap Arch.lp64.ulong_bits
        (wrap Arch.lp64.sector_bits (0 + bytes2 >>> 9) <<< 9))
      (wrap Arch.lp64.ulong_bits ((bytes2 >>> 9) <<< 9)) 2
    have hd2 : dev2.data = some _ := hd
    unfold prbbd_dev.contents
    rw [hd2]
    exact le_trans hcnt (by omega)

/-- C8 at a write bio whose two segments are 512 and 1024 bytes long, on a
four-sector device: the call succeeds with status 0, but the second segment is
transferred with the sector count of the first, so the mapped memory ends as
512 ones, 512 twos and 1024 zeroes, which is not the concatenation of the two
segment buffers (512 ones, 1024 twos) followed by the untouched 512 zeroes.
The last part does not depend on what `bio_cur_bytes` computes: whatever
function of the bio supplies the length, the loop cannot leave the
concatenation in the mapped memory. -/
theorem prbbd_xfer_bio_uneven_segments :
    (prbbd_xfer_bio Arch.lp64 dev4 bio_uneven).map (fun r => (r.1, r.2.1.contents))
      = some (0, List.replicate 512 1 ++ (List.replicate 1024 2).take 512
          ++ (List.replicate 2048 0).drop 1024) ∧
    List.replicate 512 1 ++ (List.replicate 1024 2).take 512 ++ (List.replicate 2048 0).drop 1024
      = List.replicate 512 1 ++ List.replicate 512 2 ++ List.replicate 1024 0 ∧
    (prbbd_xfer_bio Arch.lp64 dev4 bio_uneven).map (fun r => r.2.1.contents)
      ≠ some (List.replicate 512 1 ++ List.replicate 1024 2 ++ List.replicate 512 0) ∧
    (∀ cur : bio → Option Nat,
      (prbbd_xfer_bio_loop Arch.lp64 cur [0, 1] dev4 bio_uneven 0).map (fun r => r.1.contents)
        ≠ some (List.replicate 512 1 ++ List.replicate 1024 2 ++ List.replicate 512 0)) := by
  have h := xfer_two_segments (List.replicate 2048 0) (List.replicate 512 1)
    (List.replicate 1024 2) (List.length_replicate _ _) (List.length_replicate _ _)
    (List.length_replicate _ _)
  have h2 : (prbbd_xfer_bio Arch.lp64 dev4 bio_uneven).map (fun r => r.2.1.contents)
      = some (List.replicate 512 1 ++ (List.replicate 1024 2).take 512
          ++ (List.replicate 2048 0).drop 1024) := by
    have := congrArg (Option.map (fun r : Int × List Nat => r.2)) h
    rw [Option.map_map] at this
    exact this
  have hexp : List.count 2
      (List.replicate 512 1 ++ List.replicate 1024 2 ++ List.replicate 512 0) = 1024 := by
    simp only [List.count_append, List.count_replicate]
    decide
  refine ⟨h, ?_, ?_, ?_⟩
  · simp only [List.take_replicate, List.drop_replicate]
    rfl
  · rw [h2]
    intro hc
    have hcount := congrArg (List.count 2) (Option.some.inj hc)
    simp only [List.count_append, List.count_replicate, List.take_replicate,
      List.drop_replicate] at hcount
    revert hcount
    decide
  · intro cur hc
    cases hl : prbbd_xfer_bio_loop Arch.lp64 cur [0, 1] dev4 bio_uneven 0 with
    | none => rw [hl] at hc; exact Option.noConfusion hc
    | some r =>
      rw [hl] at hc
      have hle := xfer_two_segments_any_cur cur dev4 bio_uneven 1 (List.replicate 2048 0)
        (List.replicate 512 1) (List.replicate 1024 2) rfl rfl rfl rfl
        (List.length_replicate _ _) (List.length_replicate _ _)
        (by simp only [List.count_replicate]; decide)
        (by simp only [List.count_replicate]; decide) r hl
      have hcont : r.1.contents
          = List.replicate 512 1 ++ List.replicate 1024 2 ++ List.replicate 512 0 :=
        Option.some.inj hc
      rw [hcont, hexp] at hle
      omega

/-! ## Whole-request draining -/

theorem prbbd_request_loop_non_fs (a : Arch) (req : request) (h : req.cmd_type ≠ REQ_TYPE_FS) :
    ∀ (fuel : Nat) (st : queue_state),
      prbbd_request_loop a fuel (some req) st
        = run.spinning { st with ended := st.ended ++ List.replicate fuel (req.id, - EIO) } := by
  intro fuel
  induction fuel with
  | zero => intro st; simp [prbbd_request_loop]
  | succ n ih =>
    intro st
    rw [prbbd_request_loop, if_pos h, ih]
    simp [blk_end_request_all, List.replicate_succ]

set_option maxRecDepth 100000 in
/-- On a queue that holds one file-system write request of a single 512-byte
chunk the loop does return: the chunk is transferred once, the request is
ended with status 0 and the queue is empty. -/
theorem prbbd_request_fs_returns :
    prbbd_request Arch.lp64 1
        { queue_pc with pending := [{ req_pc with cmd_type := REQ_TYPE_FS, write := true,
                                                   chunks := [List.replicate 512 7] }] }
      = run.returned { queuedata := { dev0 with data := some ⟨1, List.replicate 512 7⟩ },
                       pending := [], ended := [(7, 0)], xfers := [(7, 0, 1)],
                       done := [(7, List.replicate 512 7)] } := by
  decide

/-- C9 at a queue that holds one request whose `cmd_type` is not `REQ_TYPE_FS`:
whatever number of iterations is allowed, `prbbd_request` has not returned; it
has fetched the request, ended it with `-EIO` once per iteration, called
`prbbd_transfer` never, and is still inside the loop. -/
theorem prbbd_request_non_fs_spins (fuel : Nat) :
    prbbd_request Arch.lp64 fuel queue_pc
      = run.spinning { queue_pc with pending := [],
                                     ended := List.replicate fuel (7, - EIO) } := by
  have h : req_pc.cmd_type ≠ REQ_TYPE_FS := by decide
  exact prbbd_request_loop_non_fs Arch.lp64 req_pc h fuel { queue_pc with pending := [] }

/-! ## Descriptor parser: field splitting -/

theorem strsep_split_of_not_mem (d : Char) (s : List Char) (h : d ∉ s) :
    strsep_split d s = (s, none) := by
  induction s with
  | nil => rfl
  | cons c cs ih =>
    have hc : c ≠ d := fun e => h (by simp [e])
    have hcs : d ∉ cs := fun e => h (List.mem_cons_of_mem _ e)
    simp [strsep_split, hc, ih hcs]

theorem strsep_split_of_append (d : Char) (t r : List Char) (h : d ∉ t) :
    strsep_split d (t ++ d :: r) = (t, some r) := by
  induction t with
  | nil => simp [strsep_split]
  | cons c cs ih =>
    have hc : c ≠ d := fun e => h (by simp [e])
    have hcs : d ∉ cs := fun e => h (List.mem_cons_of_mem _ e)
    simp [strsep_split, hc, ih hcs]

theorem first_occurrence (d : Char) (s : List Char) :
    d ∉ s ∨ ∃ t r, s = t ++ d :: r ∧ d ∉ t := by
  induction s with
  | nil => left; simp
  | cons c cs ih =>
    by_cases hc : c = d
    · right; exact ⟨[], cs, by simp [hc], by simp⟩
    · rcases ih with h | ⟨t, r, hs, ht⟩
      · left
        intro hm
        rcases List.mem_cons.mp hm with e | e
        · exact hc e.symm
        · exact h e
      · right
        refine ⟨c :: t, r, by simp [hs], ?_⟩
        intro hm
        rcases List.mem_cons.mp hm with e | e
        · exact hc e.symm
        · exact ht e

theorem count_of_not_mem (d : Char) (s : List Char) (h : d ∉ s) : s.count d = 0 :=
  List.count_eq_zero.mpr h

theorem count_of_append (d : Char) (t r : List Char) (h : d ∉ t) :
    (t ++ d :: r).count d = r.count d + 1 := by
  simp [List.count_append, count_of_not_mem d t h]

theorem strnlen_fits (val : List Char) (hfit : val.length ≤ 104) :
    ¬ (strnlen val (64 + 20 + 20 + 1) ≥ 64 + 20 + 20 + 1) := by
  unfold strnlen
  omega

theorem strrchr_cons (c x : Char) (xs : List Char) :
    strrchr (x :: xs) c
      = match strrchr xs c with
        | some k => some (k + 1)
        | none => if x = c then some 0 else none := by
  rw [strrchr]

theorem strrchr_spec (c : Char) (s : List Char) :
    (∀ k, strrchr s c = some k → k < s.length ∧ (k + 1 = s.length ↔ s.getLast? = some c)) ∧
    (strrchr s c = none → s.getLast? ≠ some c) := by
  induction s with
  | nil => simp [strrchr]
  | cons x xs ih =>
    cases xs with
    | nil =>
      by_cases hxc : x = c
      · simp [strrchr_cons, strrchr, hxc]
      · simp [strrchr_cons, strrchr, hxc]
    | cons y ys =>
      rw [strrchr_cons, List.getLast?_cons_cons]
      cases hx : strrchr (y :: ys) c with
      | some j =>
        obtain ⟨hj, hlast⟩ := ih.1 j hx
        refine ⟨fun k hk => ?_, fun hk => by simp at hk⟩
        have hk2 : k = j + 1 := by simpa using hk.symm
        subst hk2
        simp only [List.length_cons] at hj hlast ⊢
        exact ⟨by omega, by rw [← hlast]; omega⟩
      | none =>
        have hnone := ih.2 hx
        by_cases hxc : x = c
        · refine ⟨fun k hk => ?_, fun hk => by simp [hxc] at hk⟩
          have hk0 : k = 0 := by simpa [hxc] using hk.symm
          subst hk0
          simp only [List.length_cons]
          exact ⟨by omega, ⟨fun h => by omega, fun h => absurd h hnone⟩⟩
        · exact ⟨fun k hk => by simp [hxc] at hk, fun _ => hnone⟩

/-- What `kill_final_newline` does: a text that ends in a newline loses it, any
other text is unchanged. -/
theorem kill_final_newline_eq (s : List Char) :
    kill_final_newline s = if s.getLast? = some '\n' then s.dropLast else s := by
  unfold kill_final_newline
  cases hk : strrchr s '\n' with
  | none =>
    have := (strrchr_spec '\n' s).2 hk
    simp [this]
  | some k =>
    obtain ⟨hlt, hiff⟩ := (strrchr_spec '\n' s).1 k hk
    by_cases hl : s.getLast? = some '\n'
    · have hk1 : k + 1 = s.length := hiff.mpr hl
      have hk2 : k = s.length - 1 := by omega
      show (if k + 1 = s.length then List.take k s else s) = _
      rw [if_pos hk1, if_pos hl, List.dropLast_eq_take, hk2]
    · have hk1 : ¬ (k + 1 = s.length) := fun e => hl (hiff.mp e)
      show (if k + 1 = s.length then List.take k s else s) = _
      rw [if_neg hk1, if_neg hl]

/-- Text that does not start with a decimal digit is the number zero for the
kernel's parser. -/
theorem linux_memparse_no_leading_digit (c : Char) (rest : List Char)
    (hc : ¬ (48 ≤ c.toNat ∧ c.toNat ≤ 57)) :
    linux_memparse [] = 0 ∧ linux_memparse (c :: rest) = 0 := by
  have h0 : c ≠ '0' := by
    intro e; subst e; exact hc (by decide)
  have hd : strtoull_digits 10 (c :: rest) 0 = (0, c :: rest) := by
    unfold strtoull_digits xdigit_value
    simp only [hc, if_false]
    split_ifs with h1 h2 <;> simp
  refine ⟨by decide, ?_⟩
  have hb : simple_guess_base (c :: rest) = 10 := by simp [simple_guess_base, h0]
  have hr : simple_strtoull (c :: rest) = (0, c :: rest) := by
    simp only [simple_strtoull, hb]
    exact hd
  simp only [linux_memparse, hr]
  simp [wrap]

/-- The field split of `prbbd_setup` on a text with exactly two commas. -/
theorem prbbd_setup_three_fields (a : Arch) (h : Host) (st : State) (val f0 f1 f2 : List Char)
    (hfit : val.length ≤ 104)
    (hs : kill_final_newline val = f0 ++ ',' :: (f1 ++ ',' :: f2))
    (h0 : ',' ∉ f0) (h1 : ',' ∉ f1) (h2 : ',' ∉ f2) :
    prbbd_setup a h st val = prbbd_setup_tokens a h st f0 f1 f2 := by
  unfold prbbd_setup
  rw [if_neg (strnlen_fits val hfit)]
  simp only [hs, strsep, strsep_split_of_append _ _ _ h0, strsep_split_of_append _ _ _ h1,
    strsep_split_of_not_mem _ _ h2, Option.isSome_none, Bool.false_eq_true, if_false]

/-- A descriptor line with its newline: the third field handed to the number
validation is the text before the newline. -/
theorem prbbd_setup_strips_newline (a : Arch) (h : Host) (st : State) :
    prbbd_setup a h st "test,0x1000000,0x1000\n".toList
      = prbbd_setup_tokens a h st "test".toList "0x1000000".toList "0x1000".toList :=
  prbbd_setup_three_fields a h st _ _ _ _ (by decide) (by decide) (by decide) (by decide)
    (by decide)

/-- C6. For a raw string that fits the buffer, with the stripped text being the
string without its last character when that character is a newline and the
string itself otherwise: three or more commas in the stripped text give the
result 1 with "too many arguments" logged, fewer than two commas give the
result 1 with "not enough arguments" logged, and exactly two commas split the
stripped text into the three comma-free fields before, between and after
them, which are what the name and number validation receives; a logged failure
leaves the device list, the published disks and the held resources as they
were. -/
theorem prbbd_setup_field_count (a : Arch) (h : Host) (st : State) (val : List Char)
    (hfit : val.length ≤ 104) :
    (3 ≤ (if val.getLast? = some '\n' then val.dropLast else val).count ',' →
      prbbd_setup a h st val = (1, printk st "too many arguments\n")) ∧
    ((if val.getLast? = some '\n' then val.dropLast else val).count ',' < 2 →
      prbbd_setup a h st val = (1, printk st "not enough arguments\n")) ∧
    ((if val.getLast? = some '\n' then val.dropLast else val).count ',' = 2 →
      ∃ f0 f1 f2, (if val.getLast? = some '\n' then val.dropLast else val)
          = f0 ++ ',' :: (f1 ++ ',' :: f2) ∧
        ',' ∉ f0 ∧ ',' ∉ f1 ∧ ',' ∉ f2 ∧
        prbbd_setup a h st val = prbbd_setup_tokens a h st f0 f1 f2) ∧
    (∀ msg, (printk st msg).prbbd_list = st.prbbd_list ∧ (printk st msg).disks = st.disks ∧
      (printk st msg).held = st.held) := by
  rw [← kill_final_newline_eq val]
  have hlen := strnlen_fits val hfit
  rcases first_occurrence ',' (kill_final_newline val) with n0 | ⟨f0, s1, hs0, h0⟩
  · -- no comma
    have hc := count_of_not_mem _ _ n0
    refine ⟨fun h3 => by omega, fun _ => ?_, fun h2 => by omega, fun _ => ⟨rfl, rfl, rfl⟩⟩
    unfold prbbd_setup
    rw [if_neg hlen]
    simp only [strsep, strsep_split_of_not_mem _ _ n0, Option.isSome_none, Bool.false_eq_true,
      if_false]
  · rcases first_occurrence ',' s1 with n1 | ⟨f1, s2, hs1, h1⟩
    · -- one comma
      have hc : (kill_final_newline val).count ',' = 1 := by
        rw [hs0, count_of_append _ _ _ h0, count_of_not_mem _ _ n1]
      refine ⟨fun h3 => by omega, fun _ => ?_, fun h2 => by omega, fun _ => ⟨rfl, rfl, rfl⟩⟩
      unfold prbbd_setup
      rw [if_neg hlen]
      simp only [hs0, strsep, strsep_split_of_append _ _ _ h0, strsep_split_of_not_mem _ _ n1,
        Option.isSome_none, Bool.false_eq_true, if_false]
    · rcases first_occurrence ',' s2 with n2 | ⟨f2, s3, hs2, h2⟩
      · -- two commas
        have hc : (kill_final_newline val).count ',' = 2 := by
          rw [hs0, count_of_append _ _ _ h0, hs1, count_of_append _ _ _ h1,
            count_of_not_mem _ _ n2]
        refine ⟨fun h3 => by omega, fun hlt => by omega, fun _ => ?_, fun _ => ⟨rfl, rfl, rfl⟩⟩
        exact ⟨f0, f1, s2, by rw [hs0, hs1], h0, h1, n2,
          prbbd_setup_three_fields a h st val f0 f1 s2 hfit (by rw [hs0, hs1]) h0 h1 n2⟩
      · -- three commas or more
        have hc : 3 ≤ (kill_final_newline val).count ',' := by
          rw [hs0, count_of_append _ _ _ h0, hs1, count_of_append _ _ _ h1, hs2,
            count_of_append _ _ _ h2]
          omega
        refine ⟨fun _ => ?_, fun hlt => by omega, fun h2 => by omega, fun _ => ⟨rfl, rfl, rfl⟩⟩
        unfold prbbd_setup
        rw [if_neg hlen]
        simp only [hs0, hs1, hs2, strsep, strsep_split_of_append _ _ _ h0,
          strsep_split_of_append _ _ _ h1, strsep_split_of_append _ _ _ h2, Option.isSome_some,
          if_true]

/-! ## Device registry -/

theorem register_device_kzalloc_fails (a : Arch) (h : Host) (st : State) (name : List Char)
    (start len : Nat) (hk : h.kmalloc_ok st.seq = false) :
    register_device a h st name start len = (-ENOMEM, { st with seq := st.seq + 1 }) := by
  simp [register_device, kmalloc, hk]

theorem register_device_ioremap_fails (a : Arch) (h : Host) (st : State) (name : List Char)
    (start len : Nat) (hk : h.kmalloc_ok st.seq = true)
    (hi : h.ioremap_ok (st.seq + 1) start len = false) :
    register_device a h st name start len
      = (- EIO, { st with seq := st.seq + 2, log := st.log ++ ["ioremap failed\n"] }) := by
  simp [register_device, kmalloc, ioremap, kfree, printk, hk, hi]

theorem register_device_queue_fails (a : Arch) (h : Host) (st : State) (name : List Char)
    (start len : Nat) (hk : h.kmalloc_ok st.seq = true)
    (hi : h.ioremap_ok (st.seq + 1) start len = true)
    (hq : h.blk_alloc_queue_ok (st.seq + 2) = false) :
    register_device a h st name start len
      = (- EIO, { st with seq := st.seq + 3, log := st.log ++ ["blk_alloc_queue failed\n"] }) := by
  have hq1 : h.blk_alloc_queue_ok (st.seq + 1 + 1) = false := hq
  simp [register_device, kmalloc, ioremap, register_device_queue, blk_alloc_queue, kfree,
    iounmap, printk, hk, hi, hq1, REQUEST_MODE, RM_SIMPLE]

theorem register_device_alloc_disk_fails (a : Arch) (h : Host) (st : State) (name : List Char)
    (start len : Nat) (hk : h.kmalloc_ok st.seq = true)
    (hi : h.ioremap_ok (st.seq + 1) start len = true)
    (hq : h.blk_alloc_queue_ok (st.seq + 2) = true)
    (hd : h.alloc_disk_ok (st.seq + 3) = false) :
    register_device a h st name start len
      = (- EIO, { st with seq := st.seq + 4, held := Resource.rqueue (st.seq + 2) :: st.held,
                          log := st.log ++ ["alloc_disk failed\n"] }) := by
  have hq1 : h.blk_alloc_queue_ok (st.seq + 1 + 1) = true := hq
  have hd1 : h.alloc_disk_ok (st.seq + 1 + 1 + 1) = false := hd
  simp [register_device, kmalloc, ioremap, register_device_queue, blk_alloc_queue, alloc_disk,
    kfree, iounmap, printk, hk, hi, hq1, hd1, REQUEST_MODE, RM_SIMPLE]

theorem register_device_succeeds (a : Arch) (h : Host) (st : State) (name : List Char)
    (start len : Nat) (hk : h.kmalloc_ok st.seq = true)
    (hi : h.ioremap_ok (st.seq + 1) start len = true)
    (hq : h.blk_alloc_queue_ok (st.seq + 2) = true)
    (hd : h.alloc_disk_ok (st.seq + 3) = true) :
    register_device a h st name start len
      = (0, { st with
          seq := st.seq + 4,
          held := Resource.disk (st.seq + 3) :: Resource.rqueue (st.seq + 2)
            :: Resource.iomap (st.seq + 1) :: Resource.kmem st.seq :: st.held,
          disks := st.disks ++ [registered_disk a st name len],
          prbbd_list := st.prbbd_list ++ [registered_dev a h st name start len],
          register_device_i := st.register_device_i + 1 }) := by
  have hq1 : h.blk_alloc_queue_ok (st.seq + 1 + 1) = true := hq
  have hd1 : h.alloc_disk_ok (st.seq + 1 + 1 + 1) = true := hd
  simp [register_device, kmalloc, ioremap, register_device_queue, blk_alloc_queue, alloc_disk,
    add_disk, hk, hi, hq1, hd1, REQUEST_MODE, RM_SIMPLE, registered_disk, registered_dev]

theorem register_device_ret (a : Arch) (h : Host) (st : State) (name : List Char)
    (start len : Nat) :
    (register_device a h st name start len).1 = 0 ∨
    (register_device a h st name start len).1 = -ENOMEM ∨
    (register_device a h st name start len).1 = - EIO := by
  cases hk : h.kmalloc_ok st.seq
  · rw [register_device_kzalloc_fails a h st name start len hk]; simp
  · cases hi : h.ioremap_ok (st.seq + 1) start len
    · rw [register_device_ioremap_fails a h st name start len hk hi]; simp
    · cases hq : h.blk_alloc_queue_ok (st.seq + 2)
      · rw [register_device_queue_fails a h st name start len hk hi hq]; simp
      · cases hd : h.alloc_disk_ok (st.seq + 3)
        · rw [register_device_alloc_disk_fails a h st name start len hk hi hq hd]; simp
        · rw [register_device_succeeds a h st name start len hk hi hq hd]; simp

theorem registered_dev_mapped (a : Arch) (h : Host) (st : State) (name : List Char)
    (start len : Nat) (hlen : len < 2 ^ a.ulong_bits) :
    (registered_dev a h st name start len).mapped a :=
  ⟨⟨st.seq + 1, (List.range len).map (fun k => h.phys (start + k))⟩, rfl,
    by simp [registered_dev], by simpa using hlen⟩

/-- C4 at the failure of `alloc_disk`: with the record, the mapping and the queue
obtained and `alloc_disk` returning `NULL`, `register_device` returns `-EIO` and
leaves the device list empty, but of the three resources it releases only the
mapping and the record: the request queue (handle 2) is still held. -/
theorem register_device_alloc_disk_failure_leaks_queue :
    boot.held = [] ∧
    register_device Arch.lp64 host_no_disk boot "test".toList 0x1000000 0x1000
      = (- EIO, { boot with seq := 4, held := [Resource.rqueue 2],
                            log := ["alloc_disk failed\n"] }) := by
  decide

theorem init_prbbd_out0_keeps_devices (st : State) (ret : Int) :
    (init_prbbd_out0 st ret).1 = ret ∧
    (init_prbbd_out0 st ret).2.prbbd_list = st.prbbd_list ∧
    (init_prbbd_out0 st ret).2.disks = st.disks := by
  have key : ∀ (l : List prbbd_param) (s : State),
      (l.foldl (fun s this => kfree s this.self) s).prbbd_list = s.prbbd_list ∧
      (l.foldl (fun s this => kfree s this.self) s).disks = s.disks := by
    intro l
    induction l with
    | nil => intro s; exact ⟨rfl, rfl⟩
    | cons x xs ih => intro s; simpa [kfree] using ih (kfree s x.self)
  exact ⟨rfl, key _ _⟩

/-- C3 at two valid descriptors followed by a malformed one: `init_prbbd` returns
the non-zero result of the third `prbbd_setup`, and the two devices created
before it are still in the device list and still published. -/
theorem init_prbbd_failure_keeps_devices :
    boot_two_valid_one_malformed.prbbd_param_list.map prbbd_param.param
      = ["test,0x1000000,0x1000".toList, "swap,0x2000000,0x2000".toList, "bad".toList] ∧
    (init_prbbd Arch.lp64 host_ok boot_two_valid_one_malformed).1 = 1 ∧
    (init_prbbd Arch.lp64 host_ok boot_two_valid_one_malformed).2.prbbd_list.map prbbd_dev.size
      = [8, 16] ∧
    (init_prbbd Arch.lp64 host_ok boot_two_valid_one_malformed).2.disks.map gendisk.disk_name
      = ["test".toList, "swap".toList] := by
  decide

/-! ## Descriptor parser: name and numbers -/

/-- C5, as stated, fails: the descriptor `,4096,4096` has three fields and an
empty name; `parse_name` accepts the name, `prbbd_setup` returns 0 and one
device (of 8 sectors, named by the empty string) is created. -/
theorem prbbd_setup_empty_name_accepted :
    (parse_name host_ok boot []).1 = 0 ∧
    (prbbd_setup Arch.lp64 host_ok boot ",4096,4096".toList).1 = 0 ∧
    (prbbd_setup Arch.lp64 host_ok boot ",4096,4096".toList).2.disks.map gendisk.disk_name
      = [[]] := by
  decide

theorem prbbd_setup_tokens_ret (a : Arch) (h : Host) (st : State) (name start len : List Char)
    (hname : name.length ≤ 63) :
    (prbbd_setup_tokens a h st name start len).1 ≠ -ENOSPC := by
  have hlen : ¬ (name.length + 1 > 64) := by omega
  cases hk : h.kmalloc_ok st.seq
  · simp [prbbd_setup_tokens, parse_name, hlen, kmalloc, hk, ENOMEM, ENOSPC]
  · by_cases hs : h.memparse start = 0
    · simp [prbbd_setup_tokens, parse_name, hlen, kmalloc, hk, parse_num, hs, ENOSPC]
    · by_cases hl : h.memparse len = 0
      · simp [prbbd_setup_tokens, parse_name, hlen, kmalloc, hk, parse_num, hs, hl, ENOSPC]
      · simp only [prbbd_setup_tokens, parse_name, hlen, kmalloc, hk, parse_num, hs, hl,
          if_false, if_true]
        rcases register_device_ret a h
          { st with seq := st.seq + 1, held := Resource.kmem st.seq :: st.held } name
          (wrap a.resource_bits (h.memparse start)) (wrap a.ulong_bits (h.memparse len))
          with e | e | e
        · rw [if_pos e]; simp only [e, ENOSPC]; decide
        · rw [if_neg (by rw [e]; simp [ENOMEM])]; rw [e]; simp [ENOMEM, ENOSPC]
        · rw [if_neg (by rw [e]; simp [ EIO])]; rw [e]; simp [ EIO, ENOSPC]

/-- C5, amended. For a descriptor that fits the buffer and has exactly three
fields, the name is accepted exactly when it has at most 63 bytes, the empty
name included: with 64 bytes or more `prbbd_setup` returns `-ENOSPC` and leaves
the whole state (device list, disks, resources) untouched, and with at most 63
bytes `parse_name` fails only when the allocation of the copy fails (`-ENOMEM`)
and `prbbd_setup` never returns `-ENOSPC`. -/
theorem prbbd_setup_name_length (a : Arch) (h : Host) (st : State)
    (val name start len : List Char) (hfit : val.length ≤ 104)
    (hs : kill_final_newline val = name ++ ',' :: (start ++ ',' :: len))
    (h0 : ',' ∉ name) (h1 : ',' ∉ start) (h2 : ',' ∉ len) :
    (64 ≤ name.length → prbbd_setup a h st val = (-ENOSPC, st)) ∧
    (name.length ≤ 63 →
      (parse_name h st name).1 = (if h.kmalloc_ok st.seq then 0 else -ENOMEM) ∧
      (prbbd_setup a h st val).1 ≠ -ENOSPC) := by
  rw [prbbd_setup_three_fields a h st val name start len hfit hs h0 h1 h2]
  constructor
  · intro hlong
    have hlen : name.length + 1 > 64 := by omega
    simp [prbbd_setup_tokens, parse_name, hlen]
  · intro hshort
    refine ⟨?_, prbbd_setup_tokens_ret a h st name start len hshort⟩
    have hlen : ¬ (name.length + 1 > 64) := by omega
    cases hk : h.kmalloc_ok st.seq <;> simp [parse_name, hlen, kmalloc, hk]

theorem prbbd_setup_name_length_witness :
    (64 ≤ "test".toList.length →
      prbbd_setup Arch.lp64 host_ok boot "test,0x1000000,0x1000\n".toList = (-ENOSPC, boot)) ∧
    ("test".toList.length ≤ 63 →
      (parse_name host_ok boot "test".toList).1
        = (if host_ok.kmalloc_ok boot.seq then 0 else -ENOMEM) ∧
      (prbbd_setup Arch.lp64 host_ok boot "test,0x1000000,0x1000\n".toList).1 ≠ -ENOSPC) :=
  prbbd_setup_name_length Arch.lp64 host_ok boot "test,0x1000000,0x1000\n".toList
    "test".toList "0x1000000".toList "0x1000".toList (by decide) (by decide) (by decide)
    (by decide) (by decide)

/-- C7, as stated, fails in both directions: `0` and `1M` are well-formed
numerals and `1M` is not zero, yet `test,0,1M` is rejected with "illegal start
address"; and `1x` is not a well-formed numeral, yet `test,1x,1M` is accepted and
a device is created. -/
theorem prbbd_setup_zero_start_rejected :
    spec_numeral "0".toList = true ∧ spec_numeral "1M".toList = true ∧
    linux_memparse "1M".toList = 1048576 ∧
    prbbd_setup Arch.lp64 host_ok boot "test,0,1M".toList
      = (1, { boot with seq := 1, log := ["illegal start address\n"] }) ∧
    spec_numeral "1x".toList = false ∧
    (prbbd_setup Arch.lp64 host_ok boot "test,1x,1M".toList).1 = 0 ∧
    (prbbd_setup Arch.lp64 host_ok boot "test,1x,1M".toList).2.prbbd_list.map prbbd_dev.size
      = [2048] := by
  decide

/-! ## The kernel's number parser on well-formed numerals -/

theorem xdigit_of_decimal (c : Char) (h : is_decimal c = true) :
    ∃ v, xdigit_value c = some v ∧ v < 10 := by
  have hc : 48 ≤ c.toNat ∧ c.toNat ≤ 57 := by simpa [is_decimal] using h
  refine ⟨c.toNat - 48, ?_, by omega⟩
  simp [xdigit_value, hc]

theorem xdigit_of_octal (c : Char) (h : is_octal c = true) :
    ∃ v, xdigit_value c = some v ∧ v < 8 := by
  have hc : 48 ≤ c.toNat ∧ c.toNat ≤ 55 := by simpa [is_octal] using h
  have hc2 : 48 ≤ c.toNat ∧ c.toNat ≤ 57 := ⟨hc.1, by omega⟩
  refine ⟨c.toNat - 48, ?_, by omega⟩
  simp [xdigit_value, hc2]

theorem xdigit_lt_16 (c : Char) (h : (xdigit_value c).isSome = true) :
    ∃ v, xdigit_value c = some v ∧ v < 16 := by
  unfold xdigit_value at h ⊢
  split_ifs at h ⊢ with h1 h2 h3
  · exact ⟨_, rfl, by omega⟩
  · exact ⟨_, rfl, by omega⟩
  · exact ⟨_, rfl, by omega⟩
  · simp at h

theorem spec_suffix_cases (c : Char) (m : Nat) (h : spec_suffix c = some m) :
    (c = 'K' ∧ m = 1024) ∨ (c = 'M' ∧ m = 1024 * 1024) ∨ (c = 'G' ∧ m = 1024 * 1024 * 1024) := by
  unfold spec_suffix at h
  split_ifs at h with h1 h2 h3
  · exact Or.inl ⟨h1, (Option.some.inj h).symm⟩
  · exact Or.inr (Or.inl ⟨h2, (Option.some.inj h).symm⟩)
  · exact Or.inr (Or.inr ⟨h3, (Option.some.inj h).symm⟩)

theorem xdigit_of_suffix (c : Char) (m : Nat) (h : spec_suffix c = some m) :
    xdigit_value c = none := by
  rcases spec_suffix_cases c m h with ⟨e, _⟩ | ⟨e, _⟩ | ⟨e, _⟩ <;> subst e <;> decide

/-- The digit loop on a run of digits of the base followed by text that does
not continue it. -/
theorem strtoull_digits_append (base : Nat) (ds rest : List Char)
    (hds : ∀ c ∈ ds, ∃ v, xdigit_value c = some v ∧ v < base)
    (hrest : ∀ c tl, rest = c :: tl → ∀ v, xdigit_value c = some v → base ≤ v) :
    ∀ acc, strtoull_digits base (ds ++ rest) acc
      = (ds.foldl (fun acc c => wrap 64 (acc * base + (xdigit_value c).getD 0)) acc, rest) := by
  induction ds with
  | nil =>
    intro acc
    cases rest with
    | nil => rfl
    | cons c tl =>
      simp only [List.nil_append, List.foldl_nil]
      rw [strtoull_digits]
      cases hv : xdigit_value c with
      | none => rfl
      | some v =>
        have := hrest c tl rfl v hv
        simp [this]
  | cons c cs ih =>
    intro acc
    obtain ⟨v, hv, hlt⟩ := hds c (List.mem_cons_self _ _)
    have hcs : ∀ c ∈ cs, ∃ v, xdigit_value c = some v ∧ v < base :=
      fun x hx => hds x (List.mem_cons_of_mem _ hx)
    rw [List.cons_append, strtoull_digits]
    simp only [hv, List.foldl_cons, Option.getD_some]
    rw [if_neg (by omega), ih hcs]

theorem wrapped_fold (base : Nat) (ds : List Char) :
    ∀ acc1 acc2, acc1 % 2 ^ 64 = acc2 % 2 ^ 64 →
      (ds.foldl (fun acc c => wrap 64 (acc * base + (xdigit_value c).getD 0)) acc1) % 2 ^ 64
        = (ds.foldl (fun acc c => acc * base + (xdigit_value c).getD 0) acc2) % 2 ^ 64 := by
  induction ds with
  | nil => intro acc1 acc2 h; exact h
  | cons c cs ih =>
    intro acc1 acc2 h
    simp only [List.foldl_cons]
    apply ih
    unfold wrap
    rw [Nat.mod_mod]
    rw [Nat.add_mod, Nat.mul_mod, h, ← Nat.mul_mod, ← Nat.add_mod]

theorem wrapped_fold_lt (base : Nat) (ds : List Char) :
    ∀ acc, acc < 2 ^ 64 →
      ds.foldl (fun acc c => wrap 64 (acc * base + (xdigit_value c).getD 0)) acc < 2 ^ 64 := by
  induction ds with
  | nil => intro acc h; exact h
  | cons c cs ih =>
    intro acc _
    simp only [List.foldl_cons]
    exact ih _ (Nat.mod_lt _ (Nat.two_pow_pos _))

theorem strtoull_digits_value (base : Nat) (ds rest : List Char)
    (hds : ∀ c ∈ ds, ∃ v, xdigit_value c = some v ∧ v < base)
    (hrest : ∀ c tl, rest = c :: tl → ∀ v, xdigit_value c = some v → base ≤ v) :
    strtoull_digits base (ds ++ rest) 0 = (digits_value base ds % 2 ^ 64, rest) := by
  rw [strtoull_digits_append base ds rest hds hrest 0]
  have h1 := wrapped_fold base ds 0 0 rfl
  have h2 := wrapped_fold_lt base ds 0 (Nat.two_pow_pos _)
  rw [Nat.mod_eq_of_lt h2] at h1
  rw [h1]
  rfl


theorem digits_value_zero_cons (base : Nat) (ds : List Char) :
    digits_value base ('0' :: ds) = digits_value base ds := by
  have h0 : xdigit_value '0' = some 0 := by decide
  simp [digits_value, h0]

theorem simple_strtoull_numeral (body sfx : List Char) (hok : spec_body_ok body = true)
    (hsfx : ∀ c tl, sfx = c :: tl → tl = [] ∧ xdigit_value c = none) :
    simple_strtoull (body ++ sfx) = (spec_body_value body % 2 ^ 64, sfx) := by
  have hstop : ∀ base c tl, sfx = c :: tl → ∀ v, xdigit_value c = some v → base ≤ v := by
    intro base c tl e v hv
    rw [(hsfx c tl e).2] at hv
    exact Option.noConfusion hv
  cases body with
  | nil => simp [spec_body_ok] at hok
  | cons c0 rest =>
    by_cases h0 : c0 = '0'
    · subst h0
      cases rest with
      | nil =>
        -- the numeral `0`
        have hbase : simple_guess_base (['0'] ++ sfx) = 8 := by
          cases sfx with
          | nil => rfl
          | cons c tl =>
            have := (hsfx c tl rfl).1
            subst this
            rfl
        have hd : ∀ c ∈ ['0'], ∃ v, xdigit_value c = some v ∧ v < 8 := by
          intro c hc
          have : c = '0' := by simpa using hc
          subst this
          exact ⟨0, by decide, by decide⟩
        unfold simple_strtoull
        rw [hbase]
        simp only [show ¬ (8 = 16) by decide, if_false]
        rw [strtoull_digits_value 8 ['0'] sfx hd (hstop 8)]
        rfl
      | cons x ds =>
        by_cases hx : x = 'x' ∨ x = 'X'
        · -- hexadecimal
          simp only [spec_body_ok, hx, if_true, Bool.and_eq_true, Bool.not_eq_true',
            List.all_eq_true] at hok
          obtain ⟨hne, hall⟩ := hok
          cases ds with
          | nil => simp at hne
          | cons d ds2 =>
            have hdx : (xdigit_value d).isSome = true := hall d (List.mem_cons_self _ _)
            have hbase : simple_guess_base ('0' :: x :: d :: ds2 ++ sfx) = 16 := by
              simp [simple_guess_base, hx, hdx]
            have hd : ∀ c ∈ d :: ds2, ∃ v, xdigit_value c = some v ∧ v < 16 :=
              fun c hc => xdigit_lt_16 c (hall c hc)
            unfold simple_strtoull
            rw [hbase]
            simp only [if_true, List.cons_append, List.drop_succ_cons, List.drop_zero]
            have := strtoull_digits_value 16 (d :: ds2) sfx hd (hstop 16)
            simp only [List.cons_append] at this
            rw [this]
            simp [spec_body_value, hx]
        · -- octal
          simp only [spec_body_ok, hx, if_false, if_true, List.all_eq_true] at hok
          have hbase : simple_guess_base ('0' :: x :: ds ++ sfx) = 8 := by
            cases hds : ds ++ sfx with
            | nil => simp [simple_guess_base, hds]
            | cons d tl => simp [simple_guess_base, hds, hx]
          have hd : ∀ c ∈ '0' :: x :: ds, ∃ v, xdigit_value c = some v ∧ v < 8 := by
            intro c hc
            rcases List.mem_cons.mp hc with e | e
            · subst e; exact ⟨0, by decide, by decide⟩
            · exact xdigit_of_octal c (hok c e)
          unfold simple_strtoull
          rw [hbase]
          simp only [show ¬ (8 = 16) by decide, if_false]
          rw [strtoull_digits_value 8 ('0' :: x :: ds) sfx hd (hstop 8)]
          simp [spec_body_value, hx, digits_value_zero_cons]
    · -- decimal
      simp only [spec_body_ok, h0, if_false, List.all_eq_true] at hok
      have hbase : simple_guess_base (c0 :: rest ++ sfx) = 10 := by
        simp [simple_guess_base, h0]
      have hd : ∀ c ∈ c0 :: rest, ∃ v, xdigit_value c = some v ∧ v < 10 :=
        fun c hc => xdigit_of_decimal c (hok c hc)
      unfold simple_strtoull
      rw [hbase]
      simp only [show ¬ (10 = 16) by decide, if_false]
      rw [strtoull_digits_value 10 (c0 :: rest) sfx hd (hstop 10)]
      simp [spec_body_value, h0]


/-- The kernel's parser computes the number a well-formed field denotes,
reduced to `unsigned long long`. -/
theorem linux_memparse_of_numeral (s : List Char) (h : spec_numeral s = true) :
    linux_memparse s = spec_value s % 2 ^ 64 := by
  unfold spec_numeral spec_body at h
  unfold spec_value spec_body spec_multiplier
  cases hl : s.getLast? with
  | none =>
    rw [hl] at h
    have hs : s = [] := List.getLast?_eq_none_iff.mp hl
    subst hs
    simp [spec_body_ok] at h
  | some c =>
    rw [hl] at h
    have hs : s.dropLast ++ [c] = s := List.dropLast_append_getLast? c hl
    cases hsuf : spec_suffix c with
    | none =>
      simp only [hsuf, Option.isSome_none, Bool.false_eq_true, if_false, Option.getD_none,
        Nat.mul_one] at h ⊢
      have hr := simple_strtoull_numeral s [] h (fun c tl e => List.noConfusion e)
      rw [List.append_nil] at hr
      simp only [linux_memparse, hr]
    | some m =>
      simp only [hsuf, Option.isSome_some, if_true, Option.getD_some] at h ⊢
      have hx := xdigit_of_suffix c m hsuf
      have hr := simple_strtoull_numeral s.dropLast [c] h
        (fun c2 tl e => by
          have e1 : c = c2 := (List.cons.inj e).1
          have e2 : [] = tl := (List.cons.inj e).2
          subst e1 e2
          exact ⟨rfl, hx⟩)
      rw [hs] at hr
      simp only [linux_memparse, hr]
      rcases spec_suffix_cases c m hsuf with ⟨e, em⟩ | ⟨e, em⟩ | ⟨e, em⟩
      · subst e em
        simp only [show ¬ ('K' = 'G' ∨ 'K' = 'g') by decide,
          show ¬ ('K' = 'M' ∨ 'K' = 'm') by decide, show ('K' = 'K' ∨ 'K' = 'k') by decide,
          if_true, if_false, wrap, Nat.shiftLeft_eq]
        rw [Nat.mod_mul_mod]
        simp
      · subst e em
        simp only [show ¬ ('M' = 'G' ∨ 'M' = 'g') by decide,
          show ('M' = 'M' ∨ 'M' = 'm') by decide, if_true, if_false, wrap, Nat.shiftLeft_eq]
        rw [Nat.mod_mul_mod]
        simp
      · subst e em
        simp only [show ('G' = 'G' ∨ 'G' = 'g') by decide, if_true, wrap, Nat.shiftLeft_eq]
        rw [Nat.mod_mul_mod]
        simp


theorem linux_memparse_of_no_digit (s : List Char) (h : starts_with_digit s = false) :
    linux_memparse s = 0 := by
  cases s with
  | nil => decide
  | cons c rest =>
    have hc : ¬ (48 ≤ c.toNat ∧ c.toNat ≤ 57) := by
      simpa [starts_with_digit, is_decimal] using h
    exact (linux_memparse_no_leading_digit c rest hc).2

/-! ## Descriptor parser: the numeric fields -/

/-- What `prbbd_setup` does with the two numeric fields, in terms of the values
`memparse` returns for them, whatever `memparse` is. -/
theorem prbbd_setup_by_memparse (a : Arch) (h : Host) (st : State)
    (val name start len : List Char) (hfit : val.length ≤ 104)
    (hs : kill_final_newline val = name ++ ',' :: (start ++ ',' :: len))
    (h0 : ',' ∉ name) (h1 : ',' ∉ start) (h2 : ',' ∉ len)
    (hname : name.length ≤ 63) (hk : h.kmalloc_ok st.seq = true) :
    (h.memparse start = 0 →
      prbbd_setup a h st val = prbbd_setup_refuses st "illegal start address\n") ∧
    (h.memparse start ≠ 0 → h.memparse len = 0 →
      prbbd_setup a h st val = prbbd_setup_refuses st "illegal device length\n") ∧
    (h.memparse start ≠ 0 → h.memparse len ≠ 0 →
      prbbd_setup a h st val
        = prbbd_setup_accepts a h st name (h.memparse start) (h.memparse len)) := by
  rw [prbbd_setup_three_fields a h st val name start len hfit hs h0 h1 h2]
  have hlen : ¬ (name.length + 1 > 64) := by omega
  refine ⟨fun hz => ?_, fun hnz hz => ?_, fun hs1 hl1 => ?_⟩
  · simp [prbbd_setup_tokens, parse_name, hlen, kmalloc, hk, parse_num, hz, kfree, printk,
      prbbd_setup_refuses]
  · simp [prbbd_setup_tokens, parse_name, hlen, kmalloc, hk, parse_num, hz, hnz, kfree, printk,
      prbbd_setup_refuses]
  · simp only [prbbd_setup_tokens, parse_name, hlen, kmalloc, hk, parse_num, hs1, hl1, if_false,
      if_true, prbbd_setup_accepts]

/-- C7, amended. For a descriptor that fits the buffer and, after the final
newline is stripped, has exactly three fields, a name of at most 63 bytes whose
copy is allocated, and the kernel's `memparse`:
* a start field that does not begin with a decimal digit, or whose `memparse`
  value is zero, is refused with "illegal start address";
* with a start that passes, a length field that does not begin with a decimal
  digit, or whose `memparse` value is zero, is refused with "illegal device
  length"; a length of that kind is refused with one of the two messages
  whatever the start is;
* when both `memparse` values are non-zero the descriptor is accepted:
  `register_device` is called with the name and the two values;
* for a well-formed start and a well-formed length the `memparse` value is the
  number the field denotes reduced modulo `2 ^ 64`, so the descriptor is
  refused when that is zero for the start or for the length and accepted when
  it is non-zero for both;
* a refusal creates no device, publishes no disk and holds no resource;
* text that is not entirely a numeral is not refused for that alone: `1x` is
  no well-formed numeral and has the non-zero `memparse` value 1. -/
theorem prbbd_setup_numeric_fields (a : Arch) (h : Host) (st : State)
    (val name start len : List Char) (hfit : val.length ≤ 104)
    (hs : (if val.getLast? = some '\n' then val.dropLast else val)
      = name ++ ',' :: (start ++ ',' :: len))
    (h0 : ',' ∉ name) (h1 : ',' ∉ start) (h2 : ',' ∉ len)
    (hname : name.length ≤ 63) (hk : h.kmalloc_ok st.seq = true)
    (hmem : h.memparse = linux_memparse) :
    (starts_with_digit start = false ∨ linux_memparse start = 0 →
      prbbd_setup a h st val = prbbd_setup_refuses st "illegal start address\n") ∧
    (linux_memparse start ≠ 0 → starts_with_digit len = false ∨ linux_memparse len = 0 →
      prbbd_setup a h st val = prbbd_setup_refuses st "illegal device length\n") ∧
    (starts_with_digit len = false ∨ linux_memparse len = 0 →
      prbbd_setup a h st val = prbbd_setup_refuses st "illegal start address\n" ∨
      prbbd_setup a h st val = prbbd_setup_refuses st "illegal device length\n") ∧
    (linux_memparse start ≠ 0 → linux_memparse len ≠ 0 →
      prbbd_setup a h st val
        = prbbd_setup_accepts a h st name (linux_memparse start) (linux_memparse len)) ∧
    (spec_numeral start = true → spec_numeral len = true →
      linux_memparse start = spec_value start % 2 ^ 64 ∧
      linux_memparse len = spec_value len % 2 ^ 64 ∧
      (spec_value start % 2 ^ 64 = 0 →
        prbbd_setup a h st val = prbbd_setup_refuses st "illegal start address\n") ∧
      (spec_value start % 2 ^ 64 ≠ 0 → spec_value len % 2 ^ 64 = 0 →
        prbbd_setup a h st val = prbbd_setup_refuses st "illegal device length\n") ∧
      (spec_value start % 2 ^ 64 ≠ 0 → spec_value len % 2 ^ 64 ≠ 0 →
        prbbd_setup a h st val
          = prbbd_setup_accepts a h st name (spec_value start % 2 ^ 64)
              (spec_value len % 2 ^ 64))) ∧
    (∀ msg, (prbbd_setup_refuses st msg).2.prbbd_list = st.prbbd_list ∧
      (prbbd_setup_refuses st msg).2.disks = st.disks ∧
      (prbbd_setup_refuses st msg).2.held = st.held) ∧
    (spec_numeral "1x".toList = false ∧ starts_with_digit "1x".toList = true ∧
      linux_memparse "1x".toList ≠ 0) := by
  rw [← kill_final_newline_eq val] at hs
  obtain ⟨hA, hB, hC⟩ := prbbd_setup_by_memparse a h st val name start len hfit hs h0 h1 h2
    hname hk
  rw [hmem] at hA hB hC
  have zero_of : ∀ f, starts_with_digit f = false ∨ linux_memparse f = 0 → linux_memparse f = 0 :=
    fun f hf => hf.elim (linux_memparse_of_no_digit f) id
  refine ⟨fun hz => hA (zero_of start hz), fun hnz hz => hB hnz (zero_of len hz),
    fun hz => ?_, hC, fun ws wl => ?_, fun _ => ⟨rfl, rfl, rfl⟩, by decide⟩
  · by_cases hst : linux_memparse start = 0
    · exact Or.inl (hA hst)
    · exact Or.inr (hB hst (zero_of len hz))
  · have es := linux_memparse_of_numeral start ws
    have el := linux_memparse_of_numeral len wl
    refine ⟨es, el, fun hz => hA (es.trans hz), fun hnz hz => hB (es ▸ hnz) (el.trans hz),
      fun hnz1 hnz2 => ?_⟩
    have := hC (es ▸ hnz1) (el ▸ hnz2)
    rw [es, el] at this
    exact this

theorem prbbd_setup_numeric_fields_witness :
    (starts_with_digit "0x1000000".toList = false ∨ linux_memparse "0x1000000".toList = 0 →
      prbbd_setup Arch.lp64 host_ok boot "test,0x1000000,4K\n".toList
        = prbbd_setup_refuses boot "illegal start address\n") ∧
    (linux_memparse "0x1000000".toList ≠ 0 →
      starts_with_digit "4K".toList = false ∨ linux_memparse "4K".toList = 0 →
      prbbd_setup Arch.lp64 host_ok boot "test,0x1000000,4K\n".toList
        = prbbd_setup_refuses boot "illegal device length\n") ∧
    (starts_with_digit "4K".toList = false ∨ linux_memparse "4K".toList = 0 →
      prbbd_setup Arch.lp64 host_ok boot "test,0x1000000,4K\n".toList
        = prbbd_setup_refuses boot "illegal start address\n" ∨
      prbbd_setup Arch.lp64 host_ok boot "test,0x1000000,4K\n".toList
        = prbbd_setup_refuses boot "illegal device length\n") ∧
    (linux_memparse "0x1000000".toList ≠ 0 → linux_memparse "4K".toList ≠ 0 →
      prbbd_setup Arch.lp64 host_ok boot "test,0x1000000,4K\n".toList
        = prbbd_setup_accepts Arch.lp64 host_ok boot "test".toList
            (linux_memparse "0x1000000".toList) (linux_memparse "4K".toList)) ∧
    (spec_numeral "0x1000000".toList = true → spec_numeral "4K".toList = true →
      linux_memparse "0x1000000".toList = spec_value "0x1000000".toList % 2 ^ 64 ∧
      linux_memparse "4K".toList = spec_value "4K".toList % 2 ^ 64 ∧
      (spec_value "0x1000000".toList % 2 ^ 64 = 0 →
        prbbd_setup Arch.lp64 host_ok boot "test,0x1000000,4K\n".toList
          = prbbd_setup_refuses boot "illegal start address\n") ∧
      (spec_value "0x1000000".toList % 2 ^ 64 ≠ 0 → spec_value "4K".toList % 2 ^ 64 = 0 →
        prbbd_setup Arch.lp64 host_ok boot "test,0x1000000,4K\n".toList
          = prbbd_setup_refuses boot "illegal device length\n") ∧
      (spec_value "0x1000000".toList % 2 ^ 64 ≠ 0 → spec_value "4K".toList % 2 ^ 64 ≠ 0 →
        prbbd_setup Arch.lp64 host_ok boot "test,0x1000000,4K\n".toList
          = prbbd_setup_accepts Arch.lp64 host_ok boot "test".toList
              (spec_value "0x1000000".toList % 2 ^ 64) (spec_value "4K".toList % 2 ^ 64))) ∧
    (∀ msg, (prbbd_setup_refuses boot msg).2.prbbd_list = boot.prbbd_list ∧
      (prbbd_setup_refuses boot msg).2.disks = boot.disks ∧
      (prbbd_setup_refuses boot msg).2.held = boot.held) ∧
    (spec_numeral "1x".toList = false ∧ starts_with_digit "1x".toList = true ∧
      linux_memparse "1x".toList ≠ 0) :=
  prbbd_setup_numeric_fields Arch.lp64 host_ok boot "test,0x1000000,4K\n".toList
    "test".toList "0x1000000".toList "4K".toList (by decide) (by decide) (by decide)
    (by decide) (by decide) (by decide) (by decide) rfl

theorem prbbd_setup_field_count_witness :
    (3 ≤ (if "test,0x1000000,0x1000\n".toList.getLast? = some '\n'
          then "test,0x1000000,0x1000\n".toList.dropLast
          else "test,0x1000000,0x1000\n".toList).count ',' →
      prbbd_setup Arch.lp64 host_ok boot "test,0x1000000,0x1000\n".toList
        = (1, printk boot "too many arguments\n")) ∧
    ((if "test,0x1000000,0x1000\n".toList.getLast? = some '\n'
          then "test,0x1000000,0x1000\n".toList.dropLast
          else "test,0x1000000,0x1000\n".toList).count ',' < 2 →
      prbbd_setup Arch.lp64 host_ok boot "test,0x1000000,0x1000\n".toList
        = (1, printk boot "not enough arguments\n")) ∧
    ((if "test,0x1000000,0x1000\n".toList.getLast? = some '\n'
          then "test,0x1000000,0x1000\n".toList.dropLast
          else "test,0x1000000,0x1000\n".toList).count ',' = 2 →
      ∃ f0 f1 f2, (if "test,0x1000000,0x1000\n".toList.getLast? = some '\n'
          then "test,0x1000000,0x1000\n".toList.dropLast
          else "test,0x1000000,0x1000\n".toList)
          = f0 ++ ',' :: (f1 ++ ',' :: f2) ∧
        ',' ∉ f0 ∧ ',' ∉ f1 ∧ ',' ∉ f2 ∧
        prbbd_setup Arch.lp64 host_ok boot "test,0x1000000,0x1000\n".toList
          = prbbd_setup_tokens Arch.lp64 host_ok boot f0 f1 f2) ∧
    (∀ msg, (printk boot msg).prbbd_list = boot.prbbd_list ∧
      (printk boot msg).disks = boot.disks ∧ (printk boot msg).held = boot.held) :=
  prbbd_setup_field_count Arch.lp64 host_ok boot "test,0x1000000,0x1000\n".toList (by decide)

/-- A well-formed start whose number is `2 ^ 64` has the `memparse` value zero
and is refused. -/
theorem prbbd_setup_wrapped_start_refused :
    spec_numeral "17179869184G".toList = true ∧
    spec_value "17179869184G".toList % 2 ^ 64 = 0 ∧
    linux_memparse "17179869184G".toList = 0 ∧
    prbbd_setup Arch.lp64 host_ok boot "test,17179869184G,1M".toList
      = prbbd_setup_refuses boot "illegal start address\n" := by
  decide

/-- The kernel's parser on the forms the usage comment names, on zero and on
text with a trailing character. -/
theorem linux_memparse_examples :
    linux_memparse "64M".toList = 64 * 1024 * 1024 ∧
    linux_memparse "0x1000000".toList = 16777216 ∧
    linux_memparse "010".toList = 8 ∧
    linux_memparse "4096".toList = 4096 ∧
    linux_memparse "1G".toList = 1024 * 1024 * 1024 ∧
    linux_memparse "2k".toList = 2048 ∧
    linux_memparse "0".toList = 0 ∧
    linux_memparse "abc".toList = 0 ∧
    linux_memparse "1x".toList = 1 := by
  decide

/-- The claim's reading of numeric fields on sample texts. -/
theorem spec_value_examples :
    spec_numeral "64M".toList = true ∧ spec_value "64M".toList = 67108864 ∧
    spec_numeral "0x1000".toList = true ∧ spec_value "0x1000".toList = 4096 ∧
    spec_numeral "010".toList = true ∧ spec_value "010".toList = 8 ∧
    spec_numeral "0".toList = true ∧ spec_value "0".toList = 0 ∧
    spec_numeral "17179869184G".toList = true ∧
    spec_value "17179869184G".toList = 2 ^ 64 ∧
    spec_numeral "1x".toList = false ∧ spec_numeral "".toList = false ∧
    spec_numeral "K".toList = false ∧ spec_numeral "0x".toList = false ∧
    spec_numeral "09".toList = false ∧ spec_numeral "1KK".toList = false := by
  decide

end Prbbd
